import Mathlib

/-!
# finality-provider: consumer-controller factory and OP-Stack L2 message envelopes

A shallow embedding of

* `clientcontroller/factory.go` (`NewClientController`, `NewConsumerController`),
* `clientcontroller/opstackl2/msg.go` (the JSON message envelopes),
* the polling conditions of `itest/test_manager.go`, and
* the node process and the code extraction of `itest/wasmd_handler2.go`,

together with the properties the specification states about them.

Go values are embedded as follows.  A Go `string` is a sequence of bytes
(`GoString`), a `[]byte` is either `nil` or a sequence of bytes, a `uint64` is a
natural number below `2 ^ 64`, a pointer is an `Option`, and a Go result pair
`(value, error)` is a pair of options.
-/

/-! ## Go strings and errors -/

/-- One byte. -/
abbrev Byte := Fin 256

/-- A Go `string`: an arbitrary sequence of bytes (not necessarily valid UTF-8). -/
abbrev GoString := List Byte

/-- The byte with value `n` (the low eight bits of `n`). -/
def byteOf (n : Nat) : Byte := ⟨n % 256, Nat.mod_lt n (by decide)⟩

/-- UTF-8 encoding of the Unicode scalar value `c`, as `utf8.AppendRune` produces it. -/
def encodeRune (c : Nat) : List Byte :=
  if c < 0x80 then [byteOf c]
  else if c < 0x800 then [byteOf (0xC0 + c / 64), byteOf (0x80 + c % 64)]
  else if c < 0x10000 then
    [byteOf (0xE0 + c / 4096), byteOf (0x80 + c / 64 % 64), byteOf (0x80 + c % 64)]
  else
    [byteOf (0xF0 + c / 262144), byteOf (0x80 + c / 4096 % 64), byteOf (0x80 + c / 64 % 64),
      byteOf (0x80 + c % 64)]

/-- The bytes of a sequence of Unicode scalar values in UTF-8. -/
def encodeRunes : List Char → GoString
  | [] => []
  | c :: cs => encodeRune c.toNat ++ encodeRunes cs

/-- The Go string denoted by a source-code string literal. -/
def goStr (s : String) : GoString := encodeRunes s.data

/-- A Go `error` value: either a plain error with a message, or an error built by
`fmt.Errorf` with the `%w` verb, which carries its message and the error it wraps. -/
inductive GoError where
  | plain (msg : GoString)
  | wrap (msg : GoString) (cause : GoError)
  deriving DecidableEq, Repr

namespace GoError

/-- The method `Error()`: the message of an error. -/
def Error : GoError → GoString
  | plain msg => msg
  | wrap msg _ => msg

/-- The method `Unwrap()`: the wrapped error, if any. -/
def Unwrap : GoError → Option GoError
  | plain _ => none
  | wrap _ cause => some cause

end GoError

/-- The call `fmt.Errorf(pre + "%w", err)`: the message is the literal text followed by
the message of `err`, and the result wraps `err`. -/
def errorfW (pre : GoString) (err : GoError) : GoError :=
  GoError.wrap (pre ++ err.Error) err

/-- The call `fmt.Errorf(msg)` for a format string without verbs. -/
def errorf (msg : GoString) : GoError := GoError.plain msg

/-! ## `clientcontroller/factory.go` -/

namespace clientcontroller

def BabylonConsumerChainName : GoString := goStr "babylon"

def OPStackL2ConsumerChainName : GoString := goStr "OPStackL2"

def WasmConsumerChainName : GoString := goStr "wasm"

/-- The fields of `fpcfg.Config` that the factory reads.  The types of the backend
configurations are declared outside this package and are left abstract. -/
structure Config (BC NP OC WC : Type) where
  ChainName : GoString
  BabylonConfig : BC
  BTCNetParams : NP
  OPStackL2Config : OC
  CosmwasmConfig : WC

/-- The functions of the backend packages that the factory calls.  Each constructor
returns a Go pair `(controller, error)`. -/
structure Backends (BC NP OC WC EC L CC CCC : Type) where
  NewBabylonController : BC → NP → L → Option CC × Option GoError
  NewBabylonConsumerController : BC → NP → L → Option CCC × Option GoError
  NewOPStackL2ConsumerController : OC → L → Option CCC × Option GoError
  GetWasmdEncodingConfig : EC
  NewCosmwasmConsumerController : WC → EC → L → Option CCC × Option GoError

/-- One call made by the factory into a backend package, with its arguments. -/
inductive Call (BC NP OC WC EC L : Type) where
  | NewBabylonController (cfg : BC) (params : NP) (logger : L)
  | NewBabylonConsumerController (cfg : BC) (params : NP) (logger : L)
  | NewOPStackL2ConsumerController (cfg : OC) (logger : L)
  | GetWasmdEncodingConfig
  | NewCosmwasmConsumerController (cfg : WC) (enc : EC) (logger : L)
  deriving DecidableEq, Repr

/-- Whether a call is a call of one of the three consumer-controller constructors. -/
def Call.isConsumerConstructor {BC NP OC WC EC L : Type} : Call BC NP OC WC EC L → Bool
  | .NewBabylonConsumerController _ _ _ => true
  | .NewOPStackL2ConsumerController _ _ => true
  | .NewCosmwasmConsumerController _ _ _ => true
  | _ => false

/-- What a factory function hands back: the returned controller, the returned error,
and the backend calls it made, in order. -/
structure Outcome (R BC NP OC WC EC L : Type) where
  ctl : Option R
  err : Option GoError
  calls : List (Call BC NP OC WC EC L)

section Factory

variable {BC NP OC WC EC L CC CCC : Type}

/-- `NewClientController`: always builds the Babylon controller. -/
def NewClientController (env : Backends BC NP OC WC EC L CC CCC)
    (config : Config BC NP OC WC) (logger : L) : Outcome CC BC NP OC WC EC L :=
  let r := env.NewBabylonController config.BabylonConfig config.BTCNetParams logger
  let calls := [Call.NewBabylonController config.BabylonConfig config.BTCNetParams logger]
  match r.2 with
  | some err =>
    ⟨none, some (errorfW (goStr "failed to create Babylon rpc client: ") err), calls⟩
  | none => ⟨r.1, r.2, calls⟩

/-- `NewConsumerController`: a switch over `config.ChainName`. -/
def NewConsumerController (env : Backends BC NP OC WC EC L CC CCC)
    (config : Config BC NP OC WC) (logger : L) : Outcome CCC BC NP OC WC EC L :=
  if config.ChainName = BabylonConsumerChainName then
    let r := env.NewBabylonConsumerController config.BabylonConfig config.BTCNetParams logger
    let calls :=
      [Call.NewBabylonConsumerController config.BabylonConfig config.BTCNetParams logger]
    match r.2 with
    | some err =>
      ⟨none, some (errorfW (goStr "failed to create Babylon rpc client: ") err), calls⟩
    | none => ⟨r.1, r.2, calls⟩
  else if config.ChainName = OPStackL2ConsumerChainName then
    let r := env.NewOPStackL2ConsumerController config.OPStackL2Config logger
    let calls := [Call.NewOPStackL2ConsumerController config.OPStackL2Config logger]
    match r.2 with
    | some err =>
      ⟨none, some (errorfW (goStr "failed to create OPStack L2 consumer client: ") err), calls⟩
    | none => ⟨r.1, r.2, calls⟩
  else if config.ChainName = WasmConsumerChainName then
    let wasmEncodingCfg := env.GetWasmdEncodingConfig
    let r := env.NewCosmwasmConsumerController config.CosmwasmConfig wasmEncodingCfg logger
    let calls :=
      [Call.GetWasmdEncodingConfig,
        Call.NewCosmwasmConsumerController config.CosmwasmConfig wasmEncodingCfg logger]
    match r.2 with
    | some err =>
      ⟨none, some (errorfW (goStr "failed to create Wasm rpc client: ") err), calls⟩
    | none => ⟨r.1, r.2, calls⟩
  else
    ⟨none, some (errorf (goStr "unsupported consumer chain")), []⟩

end Factory

end clientcontroller

/-! ## The part of `encoding/json` the message envelopes rely on

`json.Marshal` and `json.Unmarshal` are described at the level of JSON values: `Marshal`
yields the value whose text is written, `Unmarshal` stores the parsed value into a Go
value.  The serialisation of a JSON value as text, and its parsing, are not modelled. -/

namespace json

/-- A JSON value.  Object members keep their order and may repeat a key.  A number is
a plain integer literal (no fraction, no exponent). -/
inductive Value where
  | null
  | bool (b : Bool)
  | number (n : Int)
  | string (s : String)
  | array (elems : List Value)
  | object (members : List (String × Value))

/-- The keys of a JSON object, in order; `none` for a value that is not an object. -/
def Value.keys : Value → Option (List String)
  | .object members => some (members.map Prod.fst)
  | _ => none

/-- The value stored under the first occurrence of a key of an object. -/
def Value.get? : Value → String → Option Value
  | .object members, key => (members.find? (fun kv => kv.1 = key)).map Prod.snd
  | _, _ => none

/-! ### Strings -/

/-- Whether `lo ≤ b ≤ hi`. -/
def inRange (b : Byte) (lo hi : Nat) : Bool := decide (lo ≤ b.val) && decide (b.val ≤ hi)

/-- The function `utf8.DecodeRuneInString` on a non-empty string `s0 :: rest`: the first
rune and its width in bytes, or `(0xFFFD, 1)` when the string does not start with a
well-formed encoding. -/
def decodeRune (s0 : Byte) (rest : List Byte) : Nat × Nat :=
  if s0.val < 0x80 then (s0.val, 1)
  else if inRange s0 0xC2 0xDF then
    match rest with
    | s1 :: _ =>
      if inRange s1 0x80 0xBF then (s0.val % 32 * 64 + s1.val % 64, 2) else (0xFFFD, 1)
    | _ => (0xFFFD, 1)
  else if inRange s0 0xE0 0xEF then
    let lo := if s0.val = 0xE0 then 0xA0 else 0x80
    let hi := if s0.val = 0xED then 0x9F else 0xBF
    match rest with
    | s1 :: s2 :: _ =>
      if inRange s1 lo hi && inRange s2 0x80 0xBF then
        (s0.val % 16 * 4096 + s1.val % 64 * 64 + s2.val % 64, 3)
      else (0xFFFD, 1)
    | _ => (0xFFFD, 1)
  else if inRange s0 0xF0 0xF4 then
    let lo := if s0.val = 0xF0 then 0x90 else 0x80
    let hi := if s0.val = 0xF4 then 0x8F else 0xBF
    match rest with
    | s1 :: s2 :: s3 :: _ =>
      if inRange s1 lo hi && inRange s2 0x80 0xBF && inRange s3 0x80 0xBF then
        (s0.val % 8 * 262144 + s1.val % 64 * 4096 + s2.val % 64 * 64 + s3.val % 64, 4)
      else (0xFFFD, 1)
    | _ => (0xFFFD, 1)
  else (0xFFFD, 1)

/-- The runes the encoder writes for a Go string: it walks the string rune by rune,
`skip` being the number of bytes of the current rune still to step over; a byte that
does not start a well-formed encoding is written as U+FFFD and the walk advances by one
byte. -/
def runesFrom : Nat → List Byte → List Char
  | _, [] => []
  | skip + 1, _ :: rest => runesFrom skip rest
  | 0, s0 :: rest => Char.ofNat (decodeRune s0 rest).1 :: runesFrom ((decodeRune s0 rest).2 - 1) rest

/-- Encoding of a Go `string`: a JSON string, coerced to valid UTF-8. -/
def encodeString (s : GoString) : Value := .string ⟨runesFrom 0 s⟩

/-- Storing a JSON value into a Go `string` holding `old`. -/
def decodeString (v : Value) (old : GoString) : Option GoString :=
  match v with
  | .null => some old
  | .string s => some (encodeRunes s.data)
  | _ => none

/-- A Go string is valid UTF-8 when it is the encoding of a sequence of Unicode scalar
values. -/
def IsUTF8 (s : GoString) : Prop := ∃ cs : List Char, s = encodeRunes cs

/-! ### Unsigned integers -/

/-- Encoding of a `uint64`. -/
def encodeUint64 (n : Nat) : Value := .number n

/-- Storing a JSON value into a `uint64` holding `old`. -/
def decodeUint64 (v : Value) (old : Nat) : Option Nat :=
  match v with
  | .null => some old
  | .number n => if 0 ≤ n ∧ n < 2 ^ 64 then some n.toNat else none
  | _ => none

/-! ### Byte slices: `base64.StdEncoding` -/

def b64Alphabet : List Char :=
  "ABCDEFGHIJKLMNOPQRSTUVWXYZabcdefghijklmnopqrstuvwxyz0123456789+/".data

/-- The character for the six-bit value `n`. -/
def b64Char (n : Nat) : Char := b64Alphabet.getD n 'A'

/-- The six-bit value of a character of the alphabet. -/
def b64Val (c : Char) : Option Nat :=
  if b64Alphabet.indexOf c < 64 then some (b64Alphabet.indexOf c) else none

/-- The function `base64.StdEncoding.EncodeToString`. -/
def b64Encode : List Byte → List Char
  | a :: b :: c :: rest =>
    let val := a.val * 65536 + b.val * 256 + c.val
    b64Char (val / 262144 % 64) :: b64Char (val / 4096 % 64) :: b64Char (val / 64 % 64) ::
      b64Char (val % 64) :: b64Encode rest
  | [a, b] =>
    let val := a.val * 65536 + b.val * 256
    [b64Char (val / 262144 % 64), b64Char (val / 4096 % 64), b64Char (val / 64 % 64), '=']
  | [a] =>
    let val := a.val * 65536
    [b64Char (val / 262144 % 64), b64Char (val / 4096 % 64), '=', '=']
  | [] => []

/-- Decoding of the quanta of a base64 text from which line breaks have been removed. -/
def b64DecodeQuanta : List Char → Option (List Byte)
  | [] => some []
  | c0 :: c1 :: c2 :: c3 :: rest =>
    match b64Val c0, b64Val c1 with
    | some v0, some v1 =>
      if c2 = '=' then
        if c3 = '=' ∧ rest = [] then some [byteOf ((v0 * 64 + v1) / 16)] else none
      else
        match b64Val c2 with
        | none => none
        | some v2 =>
          if c3 = '=' then
            if rest = [] then
              some [byteOf ((v0 * 4096 + v1 * 64 + v2) / 1024),
                byteOf ((v0 * 4096 + v1 * 64 + v2) / 4)]
            else none
          else
            match b64Val c3 with
            | none => none
            | some v3 =>
              let val := v0 * 262144 + v1 * 4096 + v2 * 64 + v3
              (b64DecodeQuanta rest).map fun bs =>
                byteOf (val / 65536) :: byteOf (val / 256) :: byteOf val :: bs
    | _, _ => none
  | _ => none

/-- The function `base64.StdEncoding.Decode`: carriage returns and line feeds are
skipped, padding is required, and nothing may follow the padding. -/
def b64Decode (s : List Char) : Option (List Byte) :=
  b64DecodeQuanta (s.filter fun c => !(c == '\r' || c == '\n'))

/-- Encoding of a `[]byte`: `null` for a nil slice, else the base64 text as a string. -/
def encodeBytes : Option (List Byte) → Value
  | none => .null
  | some bs => .string ⟨b64Encode bs⟩

/-- Storing a JSON value into one element of a `[]byte`. -/
def decodeByteElem : Value → Option Byte
  | .null => some 0
  | .number n => if 0 ≤ n ∧ n < 256 then some (byteOf n.toNat) else none
  | _ => none

/-- Storing a JSON value into a `[]byte`: `null` gives the nil slice, a string is
base64 text, an array is stored element by element. -/
def decodeBytes : Value → Option (Option (List Byte))
  | .null => some none
  | .string s => (b64Decode s.data).map some
  | .array elems => (elems.mapM decodeByteElem).map some
  | _ => none

/-- Whether a slice has length 0, as the `omitempty` option tests it: a nil slice and an
empty slice both have. -/
def isEmptySlice {α : Type} : Option (List α) → Bool
  | none => true
  | some xs => xs.isEmpty

/-- Encoding of a `[][]byte`: `null` for a nil slice, else the array of the encodings of
its elements. -/
def encodeBytesList : Option (List (Option (List Byte))) → Value
  | none => .null
  | some bs => .array (bs.map encodeBytes)

/-- Storing the elements of a JSON array into the elements of a `[][]byte`. -/
def decodeBytesElems : List Value → Option (List (Option (List Byte)))
  | [] => some []
  | v :: vs =>
    match decodeBytes v with
    | none => none
    | some b => (decodeBytesElems vs).map fun bs => b :: bs

/-- Storing a JSON value into a `[][]byte`: `null` gives the nil slice, an array is
stored element by element, the empty array giving an empty slice. -/
def decodeBytesList : Value → Option (Option (List (Option (List Byte))))
  | .null => some none
  | .array elems => (decodeBytesElems elems).map some
  | _ => none

/-! ### Signed integers -/

/-- Encoding of an `int64`. -/
def encodeInt64 (n : Int) : Value := .number n

/-- Storing a JSON value into an `int64` holding `old`. -/
def decodeInt64 (v : Value) (old : Int) : Option Int :=
  match v with
  | .null => some old
  | .number n => if -2 ^ 63 ≤ n ∧ n < 2 ^ 63 then some n else none
  | _ => none

/-! ### Structs -/

/-- One exported field of a struct type `T`, as its `json` tag describes it. -/
structure StructField (T : Type) where
  /-- The key given in the tag. -/
  name : String
  /-- Whether an empty value is left out by the `omitempty` option. -/
  omitted : T → Bool
  /-- The encoding of the value of the field. -/
  get : T → Value
  /-- Storing a JSON value into the field; the first argument is the comparison of keys
  without regard to case, used by the fields that are themselves structs. -/
  set : (String → String → Bool) → Value → T → Option T

/-- Encoding of a struct: its fields in declaration order. -/
def marshalStruct {T : Type} (fields : List (StructField T)) (x : T) : Value :=
  .object (fields.filterMap fun f => if f.omitted x then none else some (f.name, f.get x))

/-- The members of the JSON object a struct is encoded as. -/
def structMembers {T : Type} (fields : List (StructField T)) (x : T) : List (String × Value) :=
  fields.filterMap fun f => if f.omitted x then none else some (f.name, f.get x)

/-- The field a key of a JSON object is stored into: the field whose name is the key,
else the first field whose name matches it without regard to case. -/
def findField {T : Type} (equalFold : String → String → Bool) (fields : List (StructField T))
    (key : String) : Option (StructField T) :=
  match fields.find? (fun f => f.name = key) with
  | some f => some f
  | none => fields.find? (fun f => equalFold f.name key)

/-- Storing the members of a JSON object into a struct, one after the other.  A key
that matches no field is skipped. -/
def storeMembers {T : Type} (equalFold : String → String → Bool) (fields : List (StructField T)) :
    List (String × Value) → T → Option T
  | [], x => some x
  | (key, v) :: rest, x =>
    match findField equalFold fields key with
    | none => storeMembers equalFold fields rest x
    | some f =>
      match f.set equalFold v x with
      | none => none
      | some y => storeMembers equalFold fields rest y

/-- Storing a JSON value into a struct holding `old`. -/
def unmarshalStruct {T : Type} (equalFold : String → String → Bool) (fields : List (StructField T))
    (v : Value) (old : T) : Option T :=
  match v with
  | .null => some old
  | .object members => storeMembers equalFold fields members old
  | _ => none

/-- Encoding of a pointer: `null` for the nil pointer, else the encoding of the value
pointed to. -/
def marshalPtr {T : Type} (enc : T → Value) : Option T → Value
  | none => .null
  | some x => enc x

/-- Storing a JSON value into a pointer to a struct: `null` gives the nil pointer,
anything else is stored into the struct pointed to, a new zero struct if the pointer
was nil. -/
def unmarshalPtr {T : Type} (store : Value → T → Option T) (zero : T) (v : Value)
    (old : Option T) : Option (Option T) :=
  match v with
  | .null => some none
  | _ => (store v (old.getD zero)).map some

end json

/-! ## The type `cmtcrypto.Proof` -/

namespace cmtcrypto

open json

/-- The struct `Proof` of the package `proto/tendermint/crypto` of CometBFT, which
`msg.go` imports as `cmtcrypto`; it is declared outside the repository.  `Total` and
`Index` are `int64`, `LeafHash` is a `[]byte` and `Aunts` a `[][]byte`. -/
structure Proof where
  Total : Int
  Index : Int
  LeafHash : Option (List Byte)
  Aunts : Option (List (Option (List Byte)))
  deriving DecidableEq, Repr

/-- The fields of `Proof` with their `json` tags, `total,omitempty`, `index,omitempty`,
`leaf_hash,omitempty` and `aunts,omitempty`: a zero number and a slice of length 0 are
left out. -/
def Proof.fields : List (StructField Proof) :=
  [ ⟨"total", fun p => p.Total == 0, fun p => encodeInt64 p.Total,
      fun _ v p => (decodeInt64 v p.Total).map fun x => { p with Total := x }⟩,
    ⟨"index", fun p => p.Index == 0, fun p => encodeInt64 p.Index,
      fun _ v p => (decodeInt64 v p.Index).map fun x => { p with Index := x }⟩,
    ⟨"leaf_hash", fun p => isEmptySlice p.LeafHash, fun p => encodeBytes p.LeafHash,
      fun _ v p => (decodeBytes v).map fun x => { p with LeafHash := x }⟩,
    ⟨"aunts", fun p => isEmptySlice p.Aunts, fun p => encodeBytesList p.Aunts,
      fun _ v p => (decodeBytesList v).map fun x => { p with Aunts := x }⟩ ]

/-- The zero value of `Proof`. -/
def Proof.zero : Proof := ⟨0, 0, none, none⟩

/-- Whether `Total` and `Index` are `int64` values. -/
def Proof.InRange (p : Proof) : Prop :=
  (-2 ^ 63 ≤ p.Total ∧ p.Total < 2 ^ 63) ∧ (-2 ^ 63 ≤ p.Index ∧ p.Index < 2 ^ 63)

/-- The proof with each slice of length 0 replaced by the nil slice. -/
def Proof.withoutEmpty (p : Proof) : Proof :=
  ⟨p.Total, p.Index, if isEmptySlice p.LeafHash then none else p.LeafHash,
    if isEmptySlice p.Aunts then none else p.Aunts⟩

end cmtcrypto

/-! ## `clientcontroller/opstackl2/msg.go` -/

namespace opstackl2

open json

structure CommitPublicRandomnessMsgParams where
  FpPubkeyHex : GoString
  StartHeight : Nat
  NumPubRand : Nat
  Commitment : Option (List Byte)
  Signature : Option (List Byte)
  deriving DecidableEq, Repr

structure CommitPublicRandomnessMsg where
  CommitPublicRandomness : CommitPublicRandomnessMsgParams
  deriving DecidableEq, Repr

/-- The fields of `CommitPublicRandomnessMsgParams` with their `json` tags. -/
def CommitPublicRandomnessMsgParams.fields : List (StructField CommitPublicRandomnessMsgParams) :=
  [ ⟨"fp_pubkey_hex", fun _ => false, fun p => encodeString p.FpPubkeyHex,
      fun _ v p => (decodeString v p.FpPubkeyHex).map fun x => { p with FpPubkeyHex := x }⟩,
    ⟨"start_height", fun _ => false, fun p => encodeUint64 p.StartHeight,
      fun _ v p => (decodeUint64 v p.StartHeight).map fun x => { p with StartHeight := x }⟩,
    ⟨"num_pub_rand", fun _ => false, fun p => encodeUint64 p.NumPubRand,
      fun _ v p => (decodeUint64 v p.NumPubRand).map fun x => { p with NumPubRand := x }⟩,
    ⟨"commitment", fun _ => false, fun p => encodeBytes p.Commitment,
      fun _ v p => (decodeBytes v).map fun x => { p with Commitment := x }⟩,
    ⟨"signature", fun _ => false, fun p => encodeBytes p.Signature,
      fun _ v p => (decodeBytes v).map fun x => { p with Signature := x }⟩ ]

/-- The zero value of `CommitPublicRandomnessMsgParams`. -/
def CommitPublicRandomnessMsgParams.zero : CommitPublicRandomnessMsgParams :=
  ⟨[], 0, 0, none, none⟩

/-- The fields of `CommitPublicRandomnessMsg` with their `json` tags. -/
def CommitPublicRandomnessMsg.fields : List (StructField CommitPublicRandomnessMsg) :=
  [ ⟨"commit_public_randomness", fun _ => false,
      fun m => marshalStruct CommitPublicRandomnessMsgParams.fields m.CommitPublicRandomness,
      fun equalFold v m =>
        (unmarshalStruct equalFold CommitPublicRandomnessMsgParams.fields v
          m.CommitPublicRandomness).map fun x => { m with CommitPublicRandomness := x }⟩ ]

/-- The call `json.Marshal(m)` for a `CommitPublicRandomnessMsg`. -/
def CommitPublicRandomnessMsg.Marshal (m : CommitPublicRandomnessMsg) : Value :=
  marshalStruct CommitPublicRandomnessMsg.fields m

/-- The call `json.Unmarshal(data, &m)` for a new `CommitPublicRandomnessMsg`, `v` being
the value `data` is the text of; `none` stands for a returned error. -/
def CommitPublicRandomnessMsg.Unmarshal (equalFold : String → String → Bool) (v : Value) :
    Option CommitPublicRandomnessMsg :=
  unmarshalStruct equalFold CommitPublicRandomnessMsg.fields v
    ⟨CommitPublicRandomnessMsgParams.zero⟩

/-- What the envelope needs of the struct type of its field `Proof`: the zero value, the
members of the JSON object a value is encoded as, and the way a JSON value is stored into
a value.  `proofCodec` below gives them for `cmtcrypto.Proof`. -/
structure ProofCodec (P : Type) where
  zero : P
  members : P → List (String × Value)
  store : (String → String → Bool) → Value → P → Option P

/-- The encoding and decoding of `cmtcrypto.Proof`, a struct. -/
def proofCodec : ProofCodec cmtcrypto.Proof where
  zero := cmtcrypto.Proof.zero
  members := fun p => structMembers cmtcrypto.Proof.fields p
  store := fun equalFold v p => unmarshalStruct equalFold cmtcrypto.Proof.fields v p

structure SubmitFinalitySignatureMsgParams (P : Type) where
  FpPubkeyHex : GoString
  Height : Nat
  PubRand : Option (List Byte)
  Proof : Option P
  BlockHash : Option (List Byte)
  Signature : Option (List Byte)
  deriving DecidableEq, Repr

structure SubmitFinalitySignatureMsg (P : Type) where
  SubmitFinalitySignature : SubmitFinalitySignatureMsgParams P
  deriving DecidableEq, Repr

/-- The fields of `SubmitFinalitySignatureMsgParams` with their `json` tags. -/
def SubmitFinalitySignatureMsgParams.fields {P : Type} (pc : ProofCodec P) :
    List (StructField (SubmitFinalitySignatureMsgParams P)) :=
  [ ⟨"fp_pubkey_hex", fun _ => false, fun p => encodeString p.FpPubkeyHex,
      fun _ v p => (decodeString v p.FpPubkeyHex).map fun x => { p with FpPubkeyHex := x }⟩,
    ⟨"height", fun _ => false, fun p => encodeUint64 p.Height,
      fun _ v p => (decodeUint64 v p.Height).map fun x => { p with Height := x }⟩,
    ⟨"pub_rand", fun _ => false, fun p => encodeBytes p.PubRand,
      fun _ v p => (decodeBytes v).map fun x => { p with PubRand := x }⟩,
    ⟨"proof", fun _ => false, fun p => marshalPtr (fun x => .object (pc.members x)) p.Proof,
      fun equalFold v p =>
        (unmarshalPtr (pc.store equalFold) pc.zero v p.Proof).map fun x =>
          { p with Proof := x }⟩,
    ⟨"block_hash", fun _ => false, fun p => encodeBytes p.BlockHash,
      fun _ v p => (decodeBytes v).map fun x => { p with BlockHash := x }⟩,
    ⟨"signature", fun _ => false, fun p => encodeBytes p.Signature,
      fun _ v p => (decodeBytes v).map fun x => { p with Signature := x }⟩ ]

/-- The zero value of `SubmitFinalitySignatureMsgParams`. -/
def SubmitFinalitySignatureMsgParams.zero {P : Type} : SubmitFinalitySignatureMsgParams P :=
  ⟨[], 0, none, none, none, none⟩

/-- The fields of `SubmitFinalitySignatureMsg` with their `json` tags. -/
def SubmitFinalitySignatureMsg.fields {P : Type} (pc : ProofCodec P) :
    List (StructField (SubmitFinalitySignatureMsg P)) :=
  [ ⟨"submit_finality_signature", fun _ => false,
      fun m => marshalStruct (SubmitFinalitySignatureMsgParams.fields pc)
        m.SubmitFinalitySignature,
      fun equalFold v m =>
        (unmarshalStruct equalFold (SubmitFinalitySignatureMsgParams.fields pc) v
          m.SubmitFinalitySignature).map fun x => { m with SubmitFinalitySignature := x }⟩ ]

/-- The call `json.Marshal(m)` for a `SubmitFinalitySignatureMsg`. -/
def SubmitFinalitySignatureMsg.Marshal {P : Type} (pc : ProofCodec P)
    (m : SubmitFinalitySignatureMsg P) : Value :=
  marshalStruct (SubmitFinalitySignatureMsg.fields pc) m

/-- The call `json.Unmarshal(data, &m)` for a new `SubmitFinalitySignatureMsg`. -/
def SubmitFinalitySignatureMsg.Unmarshal {P : Type} (pc : ProofCodec P)
    (equalFold : String → String → Bool) (v : Value) : Option (SubmitFinalitySignatureMsg P) :=
  unmarshalStruct equalFold (SubmitFinalitySignatureMsg.fields pc) v
    ⟨SubmitFinalitySignatureMsgParams.zero⟩

/-- The type `Config struct{}`. -/
structure Config where
  deriving DecidableEq, Repr

structure LastPubRandCommit where
  BtcPkHex : GoString
  deriving DecidableEq, Repr

structure QueryMsg where
  Config : Option Config
  LastPubRandCommit : Option LastPubRandCommit
  deriving DecidableEq, Repr

/-- The struct `Config` has no field. -/
def Config.fields : List (StructField Config) := []

/-- The fields of `LastPubRandCommit` with their `json` tags. -/
def LastPubRandCommit.fields : List (StructField LastPubRandCommit) :=
  [ ⟨"btc_pk_hex", fun _ => false, fun p => encodeString p.BtcPkHex,
      fun _ v p => (decodeString v p.BtcPkHex).map fun x => { p with BtcPkHex := x }⟩ ]

/-- The fields of `QueryMsg` with their `json` tags: both carry `omitempty`, so a nil
pointer is left out. -/
def QueryMsg.fields : List (StructField QueryMsg) :=
  [ ⟨"config", fun q => q.Config.isNone,
      fun q => marshalPtr (marshalStruct Config.fields) q.Config,
      fun equalFold v q =>
        (unmarshalPtr (unmarshalStruct equalFold Config.fields) ⟨⟩ v q.Config).map fun x =>
          { q with Config := x }⟩,
    ⟨"last_pub_rand_commit", fun q => q.LastPubRandCommit.isNone,
      fun q => marshalPtr (marshalStruct LastPubRandCommit.fields) q.LastPubRandCommit,
      fun equalFold v q =>
        (unmarshalPtr (unmarshalStruct equalFold LastPubRandCommit.fields) ⟨[]⟩ v
          q.LastPubRandCommit).map fun x => { q with LastPubRandCommit := x }⟩ ]

/-- The call `json.Marshal(q)` for a `QueryMsg`. -/
def QueryMsg.Marshal (q : QueryMsg) : Value := marshalStruct QueryMsg.fields q

/-- The call `json.Unmarshal(data, &q)` for a new `QueryMsg`. -/
def QueryMsg.Unmarshal (equalFold : String → String → Bool) (v : Value) : Option QueryMsg :=
  unmarshalStruct equalFold QueryMsg.fields v ⟨none, none⟩

structure ConfigResponse where
  ConsumerId : GoString
  ActivatedHeight : Nat
  deriving DecidableEq, Repr

/-- The fields of `ConfigResponse` with their `json` tags. -/
def ConfigResponse.fields : List (StructField ConfigResponse) :=
  [ ⟨"consumer_id", fun _ => false, fun p => encodeString p.ConsumerId,
      fun _ v p => (decodeString v p.ConsumerId).map fun x => { p with ConsumerId := x }⟩,
    ⟨"activated_height", fun _ => false, fun p => encodeUint64 p.ActivatedHeight,
      fun _ v p =>
        (decodeUint64 v p.ActivatedHeight).map fun x => { p with ActivatedHeight := x }⟩ ]

/-- The call `json.Marshal(r)` for a `ConfigResponse`. -/
def ConfigResponse.Marshal (r : ConfigResponse) : Value :=
  marshalStruct ConfigResponse.fields r

/-- The call `json.Unmarshal(data, &r)` for a new `ConfigResponse`. -/
def ConfigResponse.Unmarshal (equalFold : String → String → Bool) (v : Value) :
    Option ConfigResponse :=
  unmarshalStruct equalFold ConfigResponse.fields v ⟨[], 0⟩

structure LastPubRandCommitResponse where
  StartHeight : Nat
  NumPubRand : Nat
  Commitment : Option (List Byte)
  deriving DecidableEq, Repr

/-- The fields of `LastPubRandCommitResponse` with their `json` tags. -/
def LastPubRandCommitResponse.fields : List (StructField LastPubRandCommitResponse) :=
  [ ⟨"start_height", fun _ => false, fun p => encodeUint64 p.StartHeight,
      fun _ v p => (decodeUint64 v p.StartHeight).map fun x => { p with StartHeight := x }⟩,
    ⟨"num_pub_rand", fun _ => false, fun p => encodeUint64 p.NumPubRand,
      fun _ v p => (decodeUint64 v p.NumPubRand).map fun x => { p with NumPubRand := x }⟩,
    ⟨"commitment", fun _ => false, fun p => encodeBytes p.Commitment,
      fun _ v p => (decodeBytes v).map fun x => { p with Commitment := x }⟩ ]

/-- The call `json.Marshal(r)` for a `LastPubRandCommitResponse`. -/
def LastPubRandCommitResponse.Marshal (r : LastPubRandCommitResponse) : Value :=
  marshalStruct LastPubRandCommitResponse.fields r

/-- The call `json.Unmarshal(data, &r)` for a new `LastPubRandCommitResponse`. -/
def LastPubRandCommitResponse.Unmarshal (equalFold : String → String → Bool) (v : Value) :
    Option LastPubRandCommitResponse :=
  unmarshalStruct equalFold LastPubRandCommitResponse.fields v ⟨0, 0, none⟩

end opstackl2

/-! ## `itest/test_manager.go` -/

namespace e2etest

/-- The condition polled first by `CheckBlockFinalization`, as a function of what
`QueryVotesAtHeight(height)` returned: false on an error, else `len(votes) == num`. -/
def votesCollected {V : Type} (res : List V × Option GoError) (num : Int) : Bool :=
  match res.2 with
  | some _ => false
  | none => decide ((res.1.length : Int) = num)

/-! ### Vote sets -/

/-- Modelled from the spec: the vote sets of the Finalization Quorum Tracker, which is not
part of the sources at hand.  There is one set of provider keys per height, held as a
list without repetition. -/
abbrev VoteSets (P : Type) := Nat → List P

/-- Modelled from the spec: `RecordVote(height, providerKey)` of the Finalization Quorum
Tracker "adds the provider to the set for that height (duplicate adds are idempotent)". -/
def RecordVote {P : Type} [DecidableEq P] (sets : VoteSets P) (height : Nat)
    (providerKey : P) : VoteSets P :=
  fun h =>
    if h = height then
      if providerKey ∈ sets h then sets h else sets h ++ [providerKey]
    else sets h

/-- A sequence of `RecordVote` operations, each given by its height and provider key. -/
def recordVotes {P : Type} [DecidableEq P] (sets : VoteSets P) (ops : List (Nat × P)) :
    VoteSets P :=
  ops.foldl (fun s op => RecordVote s op.1 op.2) sets

/-- Modelled from the spec: `IsFinalized(height, votes, expectedCount)`, the vote-count
comparison of `CheckBlockFinalization` applied to the vote set of the height. -/
def IsFinalized {P : Type} (sets : VoteSets P) (height : Nat) (expectedCount : Int) : Bool :=
  votesCollected (sets height, (none : Option GoError)) expectedCount

/-! ### Delegations -/

/-- The fields of `bstypes.BTCUndelegation`, a type declared by Babylon, that the test
manager reads.  The signature itself is left abstract. -/
structure BTCUndelegation (Sig : Type) where
  ValidatorUnbondingSig : Option Sig
  deriving DecidableEq, Repr

/-- The type `bstypes.BTCDelegation` is declared by Babylon, outside the repository.  Kept
are the field `BtcUndelegation` that the test manager reads and, from the data model of
the specification, the height of the Bitcoin block that includes the staking
transaction, a `uint64`. -/
structure BTCDelegation (Sig : Type) where
  InclusionHeight : Nat
  BtcUndelegation : Option (BTCUndelegation Sig)
  deriving DecidableEq, Repr

/-- Modelled from the spec: the status of a delegation.  The sources at hand name
`BTCDelegationStatus_PENDING` and `BTCDelegationStatus_ACTIVE`. -/
inductive BTCDelegationStatus where
  | PENDING
  | ACTIVE
  | UNBONDING
  | UNBONDED
  | EXPIRED
  deriving DecidableEq, Repr

/-- Modelled from the spec: the method `GetStatus` of `bstypes.BTCDelegation`, which is
not part of the sources at hand: "`status = ACTIVE` iff
`currentBtcHeight - inclusionHeight >= w`, else `PENDING`".  The difference is the
confirmation depth of the staking transaction, compared as an integer: below the
inclusion height it is negative and the status is `PENDING`. -/
def BTCDelegation.GetStatus {Sig : Type} (d : BTCDelegation Sig) (btcHeight w : Nat) :
    BTCDelegationStatus :=
  if (w : Int) ≤ (btcHeight : Int) - (d.InclusionHeight : Int) then .ACTIVE else .PENDING

/-- `CheckDelsStatus`, over any type of delegations `D` with a method `GetStatus`. -/
def CheckDelsStatus {D S : Type} [DecidableEq S] (GetStatus : D → Nat → Nat → S)
    (dels : List D) (btcHeight w : Nat) (status : S) : Bool :=
  dels.foldl (fun allChecked d => if GetStatus d btcHeight w ≠ status then false else allChecked)
    true

/-- The condition polled by `WaitForValNActiveDels`, as a function of what
`QueryBTCValidatorDelegations` returned, of the height of the tip of the Bitcoin light
client and of the finalization timeout of the staking parameters. -/
def activeDelsCondition {D S : Type} [DecidableEq S] (GetStatus : D → Nat → Nat → S)
    (active : S) (res : List D × Option GoError) (tipHeight finalizationTimeoutBlocks : Nat)
    (n : Int) : Bool :=
  match res.2 with
  | some _ => false
  | none =>
    decide ((res.1.length : Int) = n) &&
      CheckDelsStatus GetStatus res.1 tipHeight finalizationTimeoutBlocks active

set_option linter.unusedVariables false in
/-- The condition polled by `WaitForValNUnbondingDels`, as a function of what
`QueryBTCValidatorDelegations` returned.  The parameter `n` of the function is in scope
and is not read. -/
def unbondingDelsCondition {Sig : Type} (res : List (BTCDelegation Sig) × Option GoError)
    (n : Int) : Bool :=
  match res.2 with
  | some _ => false
  | none =>
    decide (res.1.length = 1) &&
      match res.1.head? with
      | none => false
      | some d =>
        match d.BtcUndelegation with
        | none => false
        | some u => u.ValidatorUnbondingSig.isSome

/-- The condition the name and the parameter of `WaitForValNUnbondingDels` announce, in
the manner of `WaitForValNActiveDels`: `n` delegations, each with an undelegation that
carries a validator unbonding signature. -/
def nUnbondingDels {Sig : Type} (dels : List (BTCDelegation Sig)) (n : Int) : Prop :=
  (dels.length : Int) = n ∧
    ∀ d ∈ dels, ∃ u, d.BtcUndelegation = some u ∧ u.ValidatorUnbondingSig.isSome = true

/-! ## `itest/wasmd_handler2.go` -/

/-- One call of the node handler into the operating system or the logger. -/
inductive SysCall where
  /-- The call `n.cmd.Process.Signal(os.Interrupt)`. -/
  | SignalInterrupt
  /-- The call `n.cmd.Wait()`. -/
  | Wait
  /-- The call `os.Remove(path)`. -/
  | Remove (path : GoString)
  /-- The call `os.RemoveAll(path)`. -/
  | RemoveAll (path : GoString)
  /-- The call `log.Printf(format, path, err)`. -/
  | Printf (format : GoString) (path : GoString) (err : GoError)
  deriving DecidableEq, Repr

/-- The operating system, as far as the node handler sees it: the error a call returns
(nil for none), given the calls made before it. -/
structure Sys where
  result : List SysCall → SysCall → Option GoError

/-- Making a call: its result, and the calls made so far with this one added. -/
def Sys.call (sys : Sys) (c : SysCall) (trace : List SysCall) :
    Option GoError × List SysCall :=
  (sys.result trace c, trace ++ [c])

/-- The type `os.Process`. -/
structure Process where
  Pid : Nat
  deriving DecidableEq, Repr

/-- The field of `exec.Cmd` that the node reads. -/
structure Cmd where
  Process : Option Process
  deriving DecidableEq, Repr

structure wasmdNode where
  cmd : Option Cmd
  pidFile : GoString
  dataDir : GoString
  deriving DecidableEq, Repr

/-- The method `stop`.  The result of `Signal` is assigned to the named result `err`,
then the deferred function overwrites `err` with the result of `Wait`. -/
def wasmdNode.stop (sys : Sys) (n : wasmdNode) (trace : List SysCall) :
    Option GoError × List SysCall :=
  match n.cmd with
  | none => (none, trace)
  | some cmd =>
    match cmd.Process with
    | none => (none, trace)
    | some _ =>
      let signalled := sys.call .SignalInterrupt trace
      let waited := sys.call .Wait signalled.2
      (waited.1, waited.2)

/-- The method `cleanup`: errors of the removals are logged and `nil` is returned. -/
def wasmdNode.cleanup (sys : Sys) (n : wasmdNode) (trace : List SysCall) :
    Option GoError × List SysCall :=
  let afterPid :=
    if n.pidFile ≠ [] then
      let removed := sys.call (.Remove n.pidFile) trace
      match removed.1 with
      | some err =>
        removed.2 ++ [SysCall.Printf (goStr "unable to remove file %s: %v") n.pidFile err]
      | none => removed.2
    else trace
  let dirs := [n.dataDir]
  let afterDirs := dirs.foldl
    (fun t dir =>
      let removed := sys.call (.RemoveAll dir) t
      match removed.1 with
      | some err => removed.2 ++ [SysCall.Printf (goStr "Cannot remove dir %s: %v") dir err]
      | none => removed.2)
    afterPid
  (none, afterDirs)

/-- The method `shutdown`. -/
def wasmdNode.shutdown (sys : Sys) (n : wasmdNode) (trace : List SysCall) :
    Option GoError × List SysCall :=
  let stopped := n.stop sys trace
  match stopped.1 with
  | some err => (some err, stopped.2)
  | none =>
    let cleaned := n.cleanup sys stopped.2
    match cleaned.1 with
    | some err => (some err, cleaned.2)
    | none => (none, cleaned.2)

/-- Whether a call is one of the calls `os.Remove` and `os.RemoveAll`. -/
def SysCall.isRemoval : SysCall → Bool
  | .Remove _ => true
  | .RemoveAll _ => true
  | _ => false

/-- An attribute of an event of `TxResponse`. -/
structure Attribute where
  Key : GoString
  Value : GoString
  deriving DecidableEq, Repr

/-- An event of `TxResponse`; `Type_` is the field `Type`. -/
structure Event where
  Type_ : GoString
  Attributes : List Attribute
  deriving DecidableEq, Repr

structure TxResponse where
  TxHash : GoString
  Events : List Event
  deriving DecidableEq, Repr

/-- The two loops of `StoreWasmCode` over the events of the decoded query response: the
values of `codeID` and `codeHash` after them. -/
def codeFromEvents (queryResp : TxResponse) : GoString × GoString :=
  queryResp.Events.foldl
    (fun acc event =>
      if event.Type_ = goStr "store_code" then
        event.Attributes.foldl
          (fun acc attr =>
            if attr.Key = goStr "code_id" then (attr.Value, acc.2)
            else if attr.Key = goStr "code_checksum" then (acc.1, attr.Value)
            else acc)
          acc
      else acc)
    ([], [])

/-- The end of `StoreWasmCode`, from the declaration of `codeID` and `codeHash` on, as a
function of the decoded query response: the code ID, the code hash and the error. -/
def StoreWasmCode_result (queryResp : TxResponse) : GoString × GoString × Option GoError :=
  let code := codeFromEvents queryResp
  if code.1 = [] ∨ code.2 = [] then
    ([], [], some (errorf (goStr "code ID or code checksum not found in transaction events")))
  else (code.1, code.2, none)

/-- The attributes of the events of type "store_code", in the order of the list. -/
def storeCodeAttributes (events : List Event) : List Attribute :=
  (events.filter fun e => e.Type_ = goStr "store_code").flatMap fun e => e.Attributes

/-- The value of the last attribute with the given key among the events of type
"store_code"; the empty string when there is none. -/
def lastStoreCodeValue (key : GoString) (events : List Event) : GoString :=
  match ((storeCodeAttributes events).filter fun a => a.Key = key).getLast? with
  | some a => a.Value
  | none => []

end e2etest

/-! ## Concrete inputs -/

namespace demo

open clientcontroller

/-- Backends over numbered configurations: the Babylon constructors succeed with
controller `1`, the OP-Stack L2 constructor succeeds with the number of its
configuration, the Cosmwasm constructor fails. -/
def env : Backends Nat Nat Nat Nat Nat Unit Nat Nat where
  NewBabylonController := fun _ _ _ => (some 1, none)
  NewBabylonConsumerController := fun _ _ _ => (some 1, none)
  NewOPStackL2ConsumerController := fun cfg _ => (some cfg, none)
  GetWasmdEncodingConfig := 7
  NewCosmwasmConsumerController := fun _ _ _ => (none, some (GoError.plain (goStr "no rpc")))

/-- Backends all of whose constructors fail. -/
def failingEnv : Backends Nat Nat Nat Nat Nat Unit Nat Nat where
  NewBabylonController := fun _ _ _ => (none, some (GoError.plain (goStr "dial")))
  NewBabylonConsumerController := fun _ _ _ => (none, some (GoError.plain (goStr "dial")))
  NewOPStackL2ConsumerController := fun _ _ => (none, some (GoError.plain (goStr "dial")))
  GetWasmdEncodingConfig := 7
  NewCosmwasmConsumerController := fun _ _ _ => (none, some (GoError.plain (goStr "dial")))

/-- A configuration with the given chain name. -/
def config (chainName : String) : Config Nat Nat Nat Nat := ⟨goStr chainName, 10, 20, 30, 40⟩

open json opstackl2

/-- A comparison of keys without regard to the case of ASCII letters. -/
def equalFold (a b : String) : Bool := a.data.map Char.toLower == b.data.map Char.toLower

/-- A commit message with a hexadecimal key, the largest `uint64` as number of values, a
commitment of 32 bytes and a signature of 64 bytes. -/
def commitMsg : CommitPublicRandomnessMsg :=
  ⟨⟨goStr "02ab", 100, 2 ^ 64 - 1, some (List.replicate 32 7), some (List.replicate 64 255)⟩⟩

/-- A commit message whose key is the single byte `0xff`, which is not valid UTF-8. -/
def commitMsgBadKey : CommitPublicRandomnessMsg := ⟨⟨[0xff], 100, 1, some [], some []⟩⟩

/-- A finality-signature message with a proof of two aunts, an empty block hash and a nil
signature. -/
def finalitySigMsg : SubmitFinalitySignatureMsg cmtcrypto.Proof :=
  ⟨⟨goStr "02ab", 50, some (List.replicate 32 1),
    some ⟨4, 1, some (List.replicate 32 3), some [some [1, 2], some [], none]⟩, some [], none⟩⟩

/-- A finality-signature message without proof whose key is the byte `0x80`. -/
def finalitySigMsgBadKey : SubmitFinalitySignatureMsg cmtcrypto.Proof :=
  ⟨⟨[0x80], 50, none, none, none, none⟩⟩

/-- A finality-signature message whose proof has an empty, non-nil leaf hash. -/
def finalitySigMsgEmptyLeaf : SubmitFinalitySignatureMsg cmtcrypto.Proof :=
  ⟨⟨goStr "02ab", 50, none, some ⟨1, 0, some [], none⟩, none, none⟩⟩

open e2etest

/-- The vote sets after four providers have voted at height 50. -/
def fourVotes : VoteSets Nat := recordVotes (fun _ => []) [(50, 1), (50, 2), (50, 3), (50, 4)]

/-- A delegation included at height 10, without undelegation. -/
def delegation10 : BTCDelegation Unit := ⟨10, none⟩

/-- A delegation included at height 12, without undelegation. -/
def delegation12 : BTCDelegation Unit := ⟨12, none⟩

/-- A delegation with an undelegation that carries a validator unbonding signature. -/
def unbondingDelegation : BTCDelegation Unit := ⟨10, some ⟨some ()⟩⟩

/-- A system in which the interrupt signal and the removal of a file fail, and every
other call succeeds. -/
def sys : Sys where
  result := fun _ c =>
    match c with
    | .SignalInterrupt => some (GoError.plain (goStr "os: process already finished"))
    | .Remove _ => some (GoError.plain (goStr "no such file or directory"))
    | _ => none

/-- A system in which waiting for the process fails, and every other call succeeds. -/
def waitFailsSys : Sys where
  result := fun _ c =>
    match c with
    | .Wait => some (GoError.plain (goStr "signal: interrupt"))
    | _ => none

/-- A started node. -/
def node : wasmdNode :=
  ⟨some ⟨some ⟨4242⟩⟩, goStr "/tmp/ZWasmdTest/wasmd.pid", goStr "/tmp/ZWasmdTest"⟩

/-- A decoded query response: a "message" event whose attributes are to be ignored, and a
"store_code" event with two code_id attributes. -/
def txResp : TxResponse :=
  ⟨goStr "A1B2",
    [⟨goStr "message", [⟨goStr "code_id", goStr "9"⟩]⟩,
     ⟨goStr "store_code",
       [⟨goStr "code_id", goStr "1"⟩, ⟨goStr "code_checksum", goStr "ab12"⟩,
        ⟨goStr "code_id", goStr "2"⟩]⟩,
     ⟨goStr "tx", [⟨goStr "code_checksum", goStr "ff"⟩]⟩]⟩

end demo

/-! ## Properties of the factory -/

namespace clientcontroller

theorem chainNames_distinct :
    OPStackL2ConsumerChainName ≠ BabylonConsumerChainName ∧
    WasmConsumerChainName ≠ BabylonConsumerChainName ∧
    WasmConsumerChainName ≠ OPStackL2ConsumerChainName := by decide

theorem errorf_messages :
    goStr "failed to create Babylon rpc client: "
      = goStr "failed to create " ++ goStr "Babylon rpc client" ++ goStr ": " ∧
    goStr "failed to create OPStack L2 consumer client: "
      = goStr "failed to create " ++ goStr "OPStack L2 consumer client" ++ goStr ": " ∧
    goStr "failed to create Wasm rpc client: "
      = goStr "failed to create " ++ goStr "Wasm rpc client" ++ goStr ": " := by decide

section

variable {BC NP OC WC EC L CC CCC : Type}

/-- C1: for a configuration whose `ChainName` is none of "babylon", "OPStackL2", "wasm",
`NewConsumerController` returns a nil controller with the error "unsupported consumer
chain", and calls nothing in the backend packages. -/
theorem NewConsumerController_unsupported (env : Backends BC NP OC WC EC L CC CCC)
    (config : Config BC NP OC WC) (logger : L)
    (hb : config.ChainName ≠ goStr "babylon")
    (ho : config.ChainName ≠ goStr "OPStackL2")
    (hw : config.ChainName ≠ goStr "wasm") :
    (NewConsumerController env config logger).ctl = none ∧
    (NewConsumerController env config logger).err
      = some (GoError.plain (goStr "unsupported consumer chain")) ∧
    (NewConsumerController env config logger).calls = [] := by
  unfold NewConsumerController
  simp only [BabylonConsumerChainName, OPStackL2ConsumerChainName, WasmConsumerChainName,
    if_neg hb, if_neg ho, if_neg hw, errorf, and_self]

/-- Witness of C1 at the chain names "", "Babylon" and "opstackl2". -/
theorem NewConsumerController_unsupported_witness :
    (NewConsumerController demo.env (demo.config "") ()).calls = [] ∧
    (NewConsumerController demo.env (demo.config "Babylon") ()).err
      = some (GoError.plain (goStr "unsupported consumer chain")) ∧
    (NewConsumerController demo.env (demo.config "opstackl2") ()).ctl = none :=
  ⟨(NewConsumerController_unsupported demo.env (demo.config "") ()
      (by decide) (by decide) (by decide)).2.2,
   (NewConsumerController_unsupported demo.env (demo.config "Babylon") ()
      (by decide) (by decide) (by decide)).2.1,
   (NewConsumerController_unsupported demo.env (demo.config "opstackl2") ()
      (by decide) (by decide) (by decide)).1⟩

/-- C2: for each of the three supported names exactly one consumer-controller
constructor is called, the one of the name, with the matching part of the configuration,
and when it returns no error its controller is returned together with a nil error. -/
theorem NewConsumerController_supported (env : Backends BC NP OC WC EC L CC CCC)
    (config : Config BC NP OC WC) (logger : L) :
    (config.ChainName = goStr "babylon" →
      (NewConsumerController env config logger).calls
        = [Call.NewBabylonConsumerController config.BabylonConfig config.BTCNetParams logger] ∧
      ((env.NewBabylonConsumerController config.BabylonConfig config.BTCNetParams logger).2
          = none →
        (NewConsumerController env config logger).ctl
          = (env.NewBabylonConsumerController config.BabylonConfig config.BTCNetParams
              logger).1 ∧
        (NewConsumerController env config logger).err = none)) ∧
    (config.ChainName = goStr "OPStackL2" →
      (NewConsumerController env config logger).calls
        = [Call.NewOPStackL2ConsumerController config.OPStackL2Config logger] ∧
      ((env.NewOPStackL2ConsumerController config.OPStackL2Config logger).2 = none →
        (NewConsumerController env config logger).ctl
          = (env.NewOPStackL2ConsumerController config.OPStackL2Config logger).1 ∧
        (NewConsumerController env config logger).err = none)) ∧
    (config.ChainName = goStr "wasm" →
      (NewConsumerController env config logger).calls
        = [Call.GetWasmdEncodingConfig,
            Call.NewCosmwasmConsumerController config.CosmwasmConfig
              env.GetWasmdEncodingConfig logger] ∧
      ((env.NewCosmwasmConsumerController config.CosmwasmConfig env.GetWasmdEncodingConfig
          logger).2 = none →
        (NewConsumerController env config logger).ctl
          = (env.NewCosmwasmConsumerController config.CosmwasmConfig
              env.GetWasmdEncodingConfig logger).1 ∧
        (NewConsumerController env config logger).err = none)) ∧
    (config.ChainName = goStr "babylon" ∨ config.ChainName = goStr "OPStackL2" ∨
        config.ChainName = goStr "wasm" →
      ((NewConsumerController env config logger).calls.filter
        Call.isConsumerConstructor).length = 1) := by
  obtain ⟨hob, hwb, hwo⟩ := chainNames_distinct
  simp only [BabylonConsumerChainName, OPStackL2ConsumerChainName, WasmConsumerChainName]
    at hob hwb hwo
  refine ⟨?_, ?_, ?_, ?_⟩
  · intro h
    unfold NewConsumerController
    simp only [BabylonConsumerChainName, if_pos h]
    cases hr : (env.NewBabylonConsumerController config.BabylonConfig config.BTCNetParams
      logger).2 <;> simp
  · intro h
    unfold NewConsumerController
    simp only [BabylonConsumerChainName, OPStackL2ConsumerChainName, h, if_neg hob, if_true]
    cases hr : (env.NewOPStackL2ConsumerController config.OPStackL2Config logger).2 <;> simp
  · intro h
    unfold NewConsumerController
    simp only [BabylonConsumerChainName, OPStackL2ConsumerChainName, WasmConsumerChainName, h,
      if_neg hwb, if_neg hwo, if_true]
    cases hr : (env.NewCosmwasmConsumerController config.CosmwasmConfig
      env.GetWasmdEncodingConfig logger).2 <;> simp
  · rintro (h | h | h)
    · unfold NewConsumerController
      simp only [BabylonConsumerChainName, if_pos h]
      cases hr : (env.NewBabylonConsumerController config.BabylonConfig config.BTCNetParams
        logger).2 <;> simp [Call.isConsumerConstructor]
    · unfold NewConsumerController
      simp only [BabylonConsumerChainName, OPStackL2ConsumerChainName, h, if_neg hob, if_true]
      cases hr : (env.NewOPStackL2ConsumerController config.OPStackL2Config logger).2 <;>
        simp [Call.isConsumerConstructor]
    · unfold NewConsumerController
      simp only [BabylonConsumerChainName, OPStackL2ConsumerChainName, WasmConsumerChainName,
        h, if_neg hwb, if_neg hwo, if_true]
      cases hr : (env.NewCosmwasmConsumerController config.CosmwasmConfig
        env.GetWasmdEncodingConfig logger).2 <;> simp [Call.isConsumerConstructor]

/-- Witness of C2 at the chain name "OPStackL2", whose constructor succeeds with the
controller `30`. -/
theorem NewConsumerController_supported_witness :
    (NewConsumerController demo.env (demo.config "OPStackL2") ()).calls
      = [Call.NewOPStackL2ConsumerController 30 ()] ∧
    (NewConsumerController demo.env (demo.config "OPStackL2") ()).ctl = some 30 ∧
    (NewConsumerController demo.env (demo.config "OPStackL2") ()).err = none :=
  ⟨((NewConsumerController_supported demo.env (demo.config "OPStackL2") ()).2.1
      (by decide)).1,
   ((NewConsumerController_supported demo.env (demo.config "OPStackL2") ()).2.1
      (by decide)).2 rfl⟩

/-- C3: for each supported name, when the constructor of the name fails with `e`,
`NewConsumerController` makes that one constructor call and no other, returns a nil
controller, and returns an error that wraps `e` and whose message is "failed to create ",
the name of the client, ": " and the message of `e`. -/
theorem NewConsumerController_constructor_error (env : Backends BC NP OC WC EC L CC CCC)
    (config : Config BC NP OC WC) (logger : L) (e : GoError) :
    (config.ChainName = goStr "babylon" →
      (env.NewBabylonConsumerController config.BabylonConfig config.BTCNetParams logger).2
        = some e →
      (NewConsumerController env config logger).ctl = none ∧
      (NewConsumerController env config logger).err
        = some (GoError.wrap
            (goStr "failed to create " ++ goStr "Babylon rpc client" ++ goStr ": " ++ e.Error)
            e) ∧
      (NewConsumerController env config logger).calls
        = [Call.NewBabylonConsumerController config.BabylonConfig config.BTCNetParams
            logger]) ∧
    (config.ChainName = goStr "OPStackL2" →
      (env.NewOPStackL2ConsumerController config.OPStackL2Config logger).2 = some e →
      (NewConsumerController env config logger).ctl = none ∧
      (NewConsumerController env config logger).err
        = some (GoError.wrap
            (goStr "failed to create " ++ goStr "OPStack L2 consumer client" ++ goStr ": "
              ++ e.Error) e) ∧
      (NewConsumerController env config logger).calls
        = [Call.NewOPStackL2ConsumerController config.OPStackL2Config logger]) ∧
    (config.ChainName = goStr "wasm" →
      (env.NewCosmwasmConsumerController config.CosmwasmConfig env.GetWasmdEncodingConfig
        logger).2 = some e →
      (NewConsumerController env config logger).ctl = none ∧
      (NewConsumerController env config logger).err
        = some (GoError.wrap
            (goStr "failed to create " ++ goStr "Wasm rpc client" ++ goStr ": " ++ e.Error)
            e) ∧
      (NewConsumerController env config logger).calls
        = [Call.GetWasmdEncodingConfig,
            Call.NewCosmwasmConsumerController config.CosmwasmConfig
              env.GetWasmdEncodingConfig logger]) := by
  obtain ⟨hob, hwb, hwo⟩ := chainNames_distinct
  simp only [BabylonConsumerChainName, OPStackL2ConsumerChainName, WasmConsumerChainName]
    at hob hwb hwo
  obtain ⟨mb, mo, mw⟩ := errorf_messages
  refine ⟨?_, ?_, ?_⟩
  · intro h hr
    unfold NewConsumerController
    simp only [BabylonConsumerChainName, if_pos h, hr, errorfW, mb, and_self]
  · intro h hr
    unfold NewConsumerController
    simp only [BabylonConsumerChainName, OPStackL2ConsumerChainName, h, if_neg hob, if_true,
      hr, errorfW, mo, and_self]
  · intro h hr
    unfold NewConsumerController
    simp only [BabylonConsumerChainName, OPStackL2ConsumerChainName, WasmConsumerChainName, h,
      if_neg hwb, if_neg hwo, if_true, hr, errorfW, mw, and_self]

/-- Witness of C3 at the chain name "wasm", whose constructor fails with "no rpc". -/
theorem NewConsumerController_constructor_error_witness :
    (NewConsumerController demo.env (demo.config "wasm") ()).ctl = none ∧
    (NewConsumerController demo.env (demo.config "wasm") ()).err
      = some (GoError.wrap (goStr "failed to create Wasm rpc client: no rpc")
          (GoError.plain (goStr "no rpc"))) ∧
    (NewConsumerController demo.env (demo.config "wasm") ()).calls
      = [Call.GetWasmdEncodingConfig, Call.NewCosmwasmConsumerController 40 7 ()] :=
  (NewConsumerController_constructor_error demo.env (demo.config "wasm") ()
    (GoError.plain (goStr "no rpc"))).2.2 (by decide) rfl

/-- C4: `NewClientController` does not depend on the configured chain name: replacing
`ChainName` by any other name leaves the outcome and the backend call unchanged, the one
call made is the Babylon controller constructor on the Babylon configuration and the
Bitcoin network parameters, and when that constructor fails with `e` the result is a nil
controller and an error wrapping `e` with the text "failed to create Babylon rpc client". -/
theorem NewClientController_chain_independent (env : Backends BC NP OC WC EC L CC CCC)
    (config : Config BC NP OC WC) (logger : L) (chainName : GoString) :
    NewClientController env
        ⟨chainName, config.BabylonConfig, config.BTCNetParams, config.OPStackL2Config,
          config.CosmwasmConfig⟩ logger
      = NewClientController env config logger ∧
    (NewClientController env config logger).calls
      = [Call.NewBabylonController config.BabylonConfig config.BTCNetParams logger] ∧
    (∀ e, (env.NewBabylonController config.BabylonConfig config.BTCNetParams logger).2
        = some e →
      (NewClientController env config logger).ctl = none ∧
      (NewClientController env config logger).err
        = some (GoError.wrap
            (goStr "failed to create Babylon rpc client" ++ goStr ": " ++ e.Error) e)) ∧
    ((env.NewBabylonController config.BabylonConfig config.BTCNetParams logger).2 = none →
      (NewClientController env config logger).ctl
        = (env.NewBabylonController config.BabylonConfig config.BTCNetParams logger).1 ∧
      (NewClientController env config logger).err = none) := by
  have hm : goStr "failed to create Babylon rpc client: "
      = goStr "failed to create Babylon rpc client" ++ goStr ": " := by decide
  refine ⟨rfl, ?_, ?_, ?_⟩
  · unfold NewClientController
    cases hr : (env.NewBabylonController config.BabylonConfig config.BTCNetParams logger).2 <;>
      simp only [hr]
  · intro e hr
    unfold NewClientController
    simp only [hr, errorfW, hm, List.append_assoc, and_self]
  · intro hr
    unfold NewClientController
    simp only [hr, and_self]

/-- Witness of C4 with a failing Babylon constructor and the unsupported chain name
"cosmos". -/
theorem NewClientController_chain_independent_witness :
    NewClientController demo.failingEnv (demo.config "cosmos") ()
      = NewClientController demo.failingEnv (demo.config "babylon") () ∧
    (NewClientController demo.failingEnv (demo.config "babylon") ()).err
      = some (GoError.wrap (goStr "failed to create Babylon rpc client: dial")
          (GoError.plain (goStr "dial"))) :=
  ⟨(NewClientController_chain_independent demo.failingEnv (demo.config "babylon") ()
      (goStr "cosmos")).1,
   ((NewClientController_chain_independent demo.failingEnv (demo.config "babylon") ()
      (goStr "cosmos")).2.2.1 (GoError.plain (goStr "dial")) rfl).2⟩

end

end clientcontroller

/-! ## Properties of the JSON encoding -/

namespace json

/-! ### Strings -/

theorem byteOf_val (n : Nat) (h : n < 256) : (byteOf n).val = n := by
  simp [byteOf]; omega

theorem decodeRune_one (n : Nat) (h : n < 0x80) (rest : List Byte) :
    decodeRune (byteOf n) rest = (n, 1) := by
  have h0 := byteOf_val n (by omega)
  simp only [decodeRune, h0, if_pos h]

theorem decodeRune_two (n : Nat) (h1 : 0x80 ≤ n) (h2 : n < 0x800) (rest : List Byte) :
    decodeRune (byteOf (0xC0 + n / 64)) (byteOf (0x80 + n % 64) :: rest) = (n, 2) := by
  have h0 := byteOf_val (0xC0 + n / 64) (by omega)
  have h1 := byteOf_val (0x80 + n % 64) (by omega)
  simp only [decodeRune, inRange, h0, h1]
  rw [if_neg (by omega)]
  simp only [Bool.and_eq_true, decide_eq_true_eq]
  rw [if_pos (by omega), if_pos (by omega)]
  congr 1
  omega

theorem decodeRune_three (n : Nat) (h1 : 0x800 ≤ n) (h2 : n < 0x10000)
    (hs : n < 0xD800 ∨ 0xDFFF < n) (rest : List Byte) :
    decodeRune (byteOf (0xE0 + n / 4096))
      (byteOf (0x80 + n / 64 % 64) :: byteOf (0x80 + n % 64) :: rest) = (n, 3) := by
  have h0 := byteOf_val (0xE0 + n / 4096) (by omega)
  have h1 := byteOf_val (0x80 + n / 64 % 64) (by omega)
  have h2 := byteOf_val (0x80 + n % 64) (by omega)
  simp only [decodeRune, inRange, h0, h1, h2]
  rw [if_neg (by omega)]
  simp only [Bool.and_eq_true, decide_eq_true_eq]
  rw [if_neg (by omega), if_pos (by omega), if_pos (by split_ifs <;> omega)]
  congr 1
  omega

theorem decodeRune_four (n : Nat) (h1 : 0x10000 ≤ n) (h2 : n < 0x110000) (rest : List Byte) :
    decodeRune (byteOf (0xF0 + n / 262144))
      (byteOf (0x80 + n / 4096 % 64) :: byteOf (0x80 + n / 64 % 64) ::
        byteOf (0x80 + n % 64) :: rest) = (n, 4) := by
  have h0 := byteOf_val (0xF0 + n / 262144) (by omega)
  have h1 := byteOf_val (0x80 + n / 4096 % 64) (by omega)
  have h2 := byteOf_val (0x80 + n / 64 % 64) (by omega)
  have h3 := byteOf_val (0x80 + n % 64) (by omega)
  simp only [decodeRune, inRange, h0, h1, h2, h3]
  rw [if_neg (by omega)]
  simp only [Bool.and_eq_true, decide_eq_true_eq]
  rw [if_neg (by omega), if_neg (by omega), if_pos (by omega), if_pos (by split_ifs <;> omega)]
  congr 1
  omega

theorem char_range (c : Char) : c.toNat < 0xD800 ∨ (0xDFFF < c.toNat ∧ c.toNat < 0x110000) := by
  have h := c.valid
  simp only [UInt32.isValidChar, Nat.isValidChar] at h
  exact h

theorem runesFrom_zero_cons (s0 : Byte) (rest : List Byte) :
    runesFrom 0 (s0 :: rest)
      = Char.ofNat (decodeRune s0 rest).1 :: runesFrom ((decodeRune s0 rest).2 - 1) rest := rfl

theorem runesFrom_succ_cons (k : Nat) (s0 : Byte) (rest : List Byte) :
    runesFrom (k + 1) (s0 :: rest) = runesFrom k rest := rfl

theorem runesFrom_encodeRune (c : Char) (tail : List Byte) :
    runesFrom 0 (encodeRune c.toNat ++ tail) = c :: runesFrom 0 tail := by
  have hc := char_range c
  have ho : Char.ofNat c.toNat = c := Char.ofNat_toNat c
  unfold encodeRune
  split_ifs with h1 h2 h3
  · rw [List.singleton_append, runesFrom_zero_cons, decodeRune_one _ h1, ho]
    rfl
  · rw [show ∀ a b : Byte, [a, b] ++ tail = a :: b :: tail from fun _ _ => rfl,
      runesFrom_zero_cons, decodeRune_two _ (by omega) h2, ho]
    rfl
  · rw [show ∀ a b d : Byte, [a, b, d] ++ tail = a :: b :: d :: tail from fun _ _ _ => rfl,
      runesFrom_zero_cons, decodeRune_three _ (by omega) h3 (by omega), ho]
    rfl
  · rw [show ∀ a b d e : Byte, [a, b, d, e] ++ tail = a :: b :: d :: e :: tail
        from fun _ _ _ _ => rfl,
      runesFrom_zero_cons, decodeRune_four _ (by omega) (by omega), ho]
    rfl

theorem runesFrom_encodeRunes (cs : List Char) : runesFrom 0 (encodeRunes cs) = cs := by
  induction cs with
  | nil => rfl
  | cons c cs ih => rw [encodeRunes, runesFrom_encodeRune, ih]

/-- Writing a Go string and reading it back gives the same bytes exactly when the
string is valid UTF-8. -/
theorem encodeRunes_runesFrom_iff (s : GoString) :
    encodeRunes (runesFrom 0 s) = s ↔ IsUTF8 s := by
  constructor
  · intro h
    exact ⟨_, h.symm⟩
  · rintro ⟨cs, rfl⟩
    rw [runesFrom_encodeRunes]

theorem decodeString_encodeString (s old : GoString) :
    decodeString (encodeString s) old = some (encodeRunes (runesFrom 0 s)) := rfl

/-! ### Byte slices and unsigned integers -/

set_option maxRecDepth 100000 in
theorem b64Char_facts : ∀ n : Fin 64,
    b64Val (b64Char n.val) = some n.val ∧ b64Char n.val ≠ '=' ∧
    (!(b64Char n.val == '\r' || b64Char n.val == '\n')) = true := by decide

theorem b64Val_b64Char (n : Nat) (h : n < 64) : b64Val (b64Char n) = some n :=
  (b64Char_facts ⟨n, h⟩).1

theorem b64Char_ne_pad (n : Nat) (h : n < 64) : b64Char n ≠ '=' :=
  (b64Char_facts ⟨n, h⟩).2.1

theorem b64Char_kept (n : Nat) (h : n < 64) :
    (!(b64Char n == '\r' || b64Char n == '\n')) = true :=
  (b64Char_facts ⟨n, h⟩).2.2

theorem byteOf_eq (b : Byte) (n : Nat) (h : n % 256 = b.val) : byteOf n = b := by
  apply Fin.ext
  simp only [byteOf]
  exact h

theorem filter_b64Encode : ∀ bs : List Byte,
    (b64Encode bs).filter (fun c => !(c == '\r' || c == '\n')) = b64Encode bs
  | [] => rfl
  | [a] => by
    have h0 := b64Char_kept (a.val * 65536 / 262144 % 64) (Nat.mod_lt _ (by decide))
    have h1 := b64Char_kept (a.val * 65536 / 4096 % 64) (Nat.mod_lt _ (by decide))
    simp only [b64Encode, List.filter_cons, h0, h1, if_true]
    rfl
  | [a, b] => by
    have h0 := b64Char_kept ((a.val * 65536 + b.val * 256) / 262144 % 64)
      (Nat.mod_lt _ (by decide))
    have h1 := b64Char_kept ((a.val * 65536 + b.val * 256) / 4096 % 64)
      (Nat.mod_lt _ (by decide))
    have h2 := b64Char_kept ((a.val * 65536 + b.val * 256) / 64 % 64)
      (Nat.mod_lt _ (by decide))
    simp only [b64Encode, List.filter_cons, h0, h1, h2, if_true]
    rfl
  | a :: b :: c :: rest => by
    have ih := filter_b64Encode rest
    have h0 := b64Char_kept ((a.val * 65536 + b.val * 256 + c.val) / 262144 % 64)
      (Nat.mod_lt _ (by decide))
    have h1 := b64Char_kept ((a.val * 65536 + b.val * 256 + c.val) / 4096 % 64)
      (Nat.mod_lt _ (by decide))
    have h2 := b64Char_kept ((a.val * 65536 + b.val * 256 + c.val) / 64 % 64)
      (Nat.mod_lt _ (by decide))
    have h3 := b64Char_kept ((a.val * 65536 + b.val * 256 + c.val) % 64)
      (Nat.mod_lt _ (by decide))
    simp only [b64Encode, List.filter_cons, h0, h1, h2, h3, if_true, ih]

theorem b64DecodeQuanta_b64Encode : ∀ bs : List Byte,
    b64DecodeQuanta (b64Encode bs) = some bs
  | [] => rfl
  | [a] => by
    have ha := a.isLt
    have v0 := b64Val_b64Char (a.val * 65536 / 262144 % 64) (Nat.mod_lt _ (by decide))
    have v1 := b64Val_b64Char (a.val * 65536 / 4096 % 64) (Nat.mod_lt _ (by decide))
    simp only [b64Encode, b64DecodeQuanta, v0, v1, if_true, and_self, Option.some.injEq,
      List.cons.injEq, and_true]
    apply byteOf_eq
    omega
  | [a, b] => by
    have ha := a.isLt
    have hb := b.isLt
    have v0 := b64Val_b64Char ((a.val * 65536 + b.val * 256) / 262144 % 64)
      (Nat.mod_lt _ (by decide))
    have v1 := b64Val_b64Char ((a.val * 65536 + b.val * 256) / 4096 % 64)
      (Nat.mod_lt _ (by decide))
    have v2 := b64Val_b64Char ((a.val * 65536 + b.val * 256) / 64 % 64)
      (Nat.mod_lt _ (by decide))
    have p2 := b64Char_ne_pad ((a.val * 65536 + b.val * 256) / 64 % 64)
      (Nat.mod_lt _ (by decide))
    simp only [b64Encode, b64DecodeQuanta, v0, v1, v2, if_neg p2, if_true, Option.some.injEq,
      List.cons.injEq, and_true]
    constructor <;> (apply byteOf_eq; omega)
  | a :: b :: c :: rest => by
    have ih := b64DecodeQuanta_b64Encode rest
    have ha := a.isLt
    have hb := b.isLt
    have hc := c.isLt
    have v0 := b64Val_b64Char ((a.val * 65536 + b.val * 256 + c.val) / 262144 % 64)
      (Nat.mod_lt _ (by decide))
    have v1 := b64Val_b64Char ((a.val * 65536 + b.val * 256 + c.val) / 4096 % 64)
      (Nat.mod_lt _ (by decide))
    have v2 := b64Val_b64Char ((a.val * 65536 + b.val * 256 + c.val) / 64 % 64)
      (Nat.mod_lt _ (by decide))
    have v3 := b64Val_b64Char ((a.val * 65536 + b.val * 256 + c.val) % 64)
      (Nat.mod_lt _ (by decide))
    have p2 := b64Char_ne_pad ((a.val * 65536 + b.val * 256 + c.val) / 64 % 64)
      (Nat.mod_lt _ (by decide))
    have p3 := b64Char_ne_pad ((a.val * 65536 + b.val * 256 + c.val) % 64)
      (Nat.mod_lt _ (by decide))
    simp only [b64Encode, b64DecodeQuanta, v0, v1, v2, v3, if_neg p2, if_neg p3, ih,
      Option.map_some', Option.some.injEq, List.cons.injEq, and_true]
    refine ⟨?_, ?_, ?_⟩ <;> (apply byteOf_eq; omega)

theorem b64Decode_b64Encode (bs : List Byte) : b64Decode (b64Encode bs) = some bs := by
  rw [b64Decode, filter_b64Encode, b64DecodeQuanta_b64Encode]

theorem decodeBytes_encodeBytes (b : Option (List Byte)) :
    decodeBytes (encodeBytes b) = some b := by
  cases b with
  | none => rfl
  | some bs => simp only [encodeBytes, decodeBytes, b64Decode_b64Encode, Option.map_some']

theorem decodeUint64_encodeUint64 (n old : Nat) (h : n < 2 ^ 64) :
    decodeUint64 (encodeUint64 n) old = some n := by
  simp only [encodeUint64, decodeUint64]
  rw [if_pos ⟨by omega, by exact_mod_cast h⟩]
  simp

end json

/-! ## Properties of the message envelopes -/

namespace opstackl2

open json

/-! ### Storing the members written by the encoder -/

theorem CommitPublicRandomnessMsgParams_store_members (equalFold : String → String → Bool)
    (v1 v2 v3 v4 v5 : Value) (old : CommitPublicRandomnessMsgParams)
    (a : GoString) (b c : Nat) (d e : Option (List Byte))
    (h1 : decodeString v1 old.FpPubkeyHex = some a)
    (h2 : decodeUint64 v2 old.StartHeight = some b)
    (h3 : decodeUint64 v3 old.NumPubRand = some c)
    (h4 : decodeBytes v4 = some d) (h5 : decodeBytes v5 = some e) :
    storeMembers equalFold CommitPublicRandomnessMsgParams.fields
      [("fp_pubkey_hex", v1), ("start_height", v2), ("num_pub_rand", v3), ("commitment", v4),
        ("signature", v5)] old
    = some ⟨a, b, c, d, e⟩ := by
  simp [storeMembers, findField, CommitPublicRandomnessMsgParams.fields, h1, h2, h3, h4, h5]

theorem CommitPublicRandomnessMsg_store_members (equalFold : String → String → Bool)
    (v : Value) (old : CommitPublicRandomnessMsg) (p : CommitPublicRandomnessMsgParams)
    (h : unmarshalStruct equalFold CommitPublicRandomnessMsgParams.fields v
      old.CommitPublicRandomness = some p) :
    storeMembers equalFold CommitPublicRandomnessMsg.fields
      [("commit_public_randomness", v)] old = some ⟨p⟩ := by
  simp [storeMembers, findField, CommitPublicRandomnessMsg.fields, h]

/-- The encoding of a commit message, member by member. -/
theorem CommitPublicRandomnessMsg_marshal_eq (m : CommitPublicRandomnessMsg) :
    CommitPublicRandomnessMsg.Marshal m
      = .object [("commit_public_randomness", .object
          [("fp_pubkey_hex", encodeString m.CommitPublicRandomness.FpPubkeyHex),
           ("start_height", encodeUint64 m.CommitPublicRandomness.StartHeight),
           ("num_pub_rand", encodeUint64 m.CommitPublicRandomness.NumPubRand),
           ("commitment", encodeBytes m.CommitPublicRandomness.Commitment),
           ("signature", encodeBytes m.CommitPublicRandomness.Signature)])] := rfl

/-- What decoding the encoding of a commit message yields: the message with its key
coerced to valid UTF-8. -/
theorem CommitPublicRandomnessMsg_unmarshal_marshal (equalFold : String → String → Bool)
    (m : CommitPublicRandomnessMsg)
    (h1 : m.CommitPublicRandomness.StartHeight < 2 ^ 64)
    (h2 : m.CommitPublicRandomness.NumPubRand < 2 ^ 64) :
    CommitPublicRandomnessMsg.Unmarshal equalFold (CommitPublicRandomnessMsg.Marshal m)
      = some ⟨⟨encodeRunes (runesFrom 0 m.CommitPublicRandomness.FpPubkeyHex),
          m.CommitPublicRandomness.StartHeight, m.CommitPublicRandomness.NumPubRand,
          m.CommitPublicRandomness.Commitment, m.CommitPublicRandomness.Signature⟩⟩ := by
  rw [CommitPublicRandomnessMsg_marshal_eq]
  simp only [CommitPublicRandomnessMsg.Unmarshal, unmarshalStruct]
  apply CommitPublicRandomnessMsg_store_members
  simp only [unmarshalStruct]
  exact CommitPublicRandomnessMsgParams_store_members equalFold _ _ _ _ _ _ _ _ _ _ _ rfl
      (decodeUint64_encodeUint64 _ _ h1) (decodeUint64_encodeUint64 _ _ h2)
      (decodeBytes_encodeBytes _) (decodeBytes_encodeBytes _)

/-- C5, as amended: for a commit message with `uint64` heights, decoding its JSON encoding
succeeds, and it yields the message itself exactly when `fp_pubkey_hex` is valid UTF-8;
commitment and signature of any length, nil or empty included, come back unchanged. -/
theorem CommitPublicRandomnessMsg_roundtrip (equalFold : String → String → Bool)
    (m : CommitPublicRandomnessMsg)
    (h1 : m.CommitPublicRandomness.StartHeight < 2 ^ 64)
    (h2 : m.CommitPublicRandomness.NumPubRand < 2 ^ 64) :
    (∃ r, CommitPublicRandomnessMsg.Unmarshal equalFold (CommitPublicRandomnessMsg.Marshal m)
        = some r ∧
      r.CommitPublicRandomness.StartHeight = m.CommitPublicRandomness.StartHeight ∧
      r.CommitPublicRandomness.NumPubRand = m.CommitPublicRandomness.NumPubRand ∧
      r.CommitPublicRandomness.Commitment = m.CommitPublicRandomness.Commitment ∧
      r.CommitPublicRandomness.Signature = m.CommitPublicRandomness.Signature) ∧
    (CommitPublicRandomnessMsg.Unmarshal equalFold (CommitPublicRandomnessMsg.Marshal m)
        = some m ↔ IsUTF8 m.CommitPublicRandomness.FpPubkeyHex) := by
  rw [CommitPublicRandomnessMsg_unmarshal_marshal equalFold m h1 h2]
  refine ⟨⟨_, rfl, rfl, rfl, rfl, rfl⟩, ?_⟩
  obtain ⟨⟨fp, sh, n, c, sg⟩⟩ := m
  simp only [Option.some.injEq, CommitPublicRandomnessMsg.mk.injEq,
    CommitPublicRandomnessMsgParams.mk.injEq, and_true]
  exact encodeRunes_runesFrom_iff fp

/-- Witness of C5 as amended: a commitment of 32 bytes and a signature of 64 bytes. -/
theorem CommitPublicRandomnessMsg_roundtrip_witness :
    CommitPublicRandomnessMsg.Unmarshal demo.equalFold
      (CommitPublicRandomnessMsg.Marshal demo.commitMsg) = some demo.commitMsg :=
  (CommitPublicRandomnessMsg_roundtrip demo.equalFold demo.commitMsg (by decide)
    (by decide)).2.2 ⟨"02ab".data, rfl⟩

/-- Counterexample to C5 as stated: a key that is not valid UTF-8 comes back as U+FFFD. -/
theorem CommitPublicRandomnessMsg_roundtrip_invalid_utf8 :
    CommitPublicRandomnessMsg.Unmarshal demo.equalFold
        (CommitPublicRandomnessMsg.Marshal demo.commitMsgBadKey)
      = some ⟨⟨[0xEF, 0xBF, 0xBD], 100, 1, some [], some []⟩⟩ ∧
    CommitPublicRandomnessMsg.Unmarshal demo.equalFold
        (CommitPublicRandomnessMsg.Marshal demo.commitMsgBadKey)
      ≠ some demo.commitMsgBadKey := by decide

/-! ### The finality-signature envelope -/

theorem SubmitFinalitySignatureMsgParams_store_members {P : Type} (pc : ProofCodec P)
    (equalFold : String → String → Bool) (v1 v2 v3 v4 v5 v6 : Value)
    (old : SubmitFinalitySignatureMsgParams P)
    (a : GoString) (b : Nat) (c : Option (List Byte)) (d : Option P)
    (e f : Option (List Byte))
    (h1 : decodeString v1 old.FpPubkeyHex = some a)
    (h2 : decodeUint64 v2 old.Height = some b)
    (h3 : decodeBytes v3 = some c)
    (h4 : unmarshalPtr (pc.store equalFold) pc.zero v4 old.Proof = some d)
    (h5 : decodeBytes v5 = some e) (h6 : decodeBytes v6 = some f) :
    storeMembers equalFold (SubmitFinalitySignatureMsgParams.fields pc)
      [("fp_pubkey_hex", v1), ("height", v2), ("pub_rand", v3), ("proof", v4),
        ("block_hash", v5), ("signature", v6)] old
    = some ⟨a, b, c, d, e, f⟩ := by
  simp [storeMembers, findField, SubmitFinalitySignatureMsgParams.fields, h1, h2, h3, h4, h5,
    h6]

theorem SubmitFinalitySignatureMsg_store_members {P : Type} (pc : ProofCodec P)
    (equalFold : String → String → Bool)
    (v : Value) (old : SubmitFinalitySignatureMsg P) (p : SubmitFinalitySignatureMsgParams P)
    (h : unmarshalStruct equalFold (SubmitFinalitySignatureMsgParams.fields pc) v
      old.SubmitFinalitySignature = some p) :
    storeMembers equalFold (SubmitFinalitySignatureMsg.fields pc)
      [("submit_finality_signature", v)] old = some ⟨p⟩ := by
  simp [storeMembers, findField, SubmitFinalitySignatureMsg.fields, h]

/-- The encoding of a finality-signature message, member by member. -/
theorem SubmitFinalitySignatureMsg_marshal_eq {P : Type} (pc : ProofCodec P)
    (m : SubmitFinalitySignatureMsg P) :
    SubmitFinalitySignatureMsg.Marshal pc m
      = .object [("submit_finality_signature", .object
          [("fp_pubkey_hex", encodeString m.SubmitFinalitySignature.FpPubkeyHex),
           ("height", encodeUint64 m.SubmitFinalitySignature.Height),
           ("pub_rand", encodeBytes m.SubmitFinalitySignature.PubRand),
           ("proof", marshalPtr (fun x => .object (pc.members x))
              m.SubmitFinalitySignature.Proof),
           ("block_hash", encodeBytes m.SubmitFinalitySignature.BlockHash),
           ("signature", encodeBytes m.SubmitFinalitySignature.Signature)])] := rfl

/-! ### The inclusion proof -/

theorem storeMembers_append {T : Type} (equalFold : String → String → Bool)
    (fields : List (StructField T)) (l₁ l₂ : List (String × Value)) :
    ∀ x : T, storeMembers equalFold fields (l₁ ++ l₂) x
      = (storeMembers equalFold fields l₁ x).bind (storeMembers equalFold fields l₂) := by
  induction l₁ with
  | nil => intro x; rfl
  | cons kv l₁ ih =>
    intro x
    obtain ⟨key, v⟩ := kv
    simp only [List.cons_append, storeMembers]
    cases findField equalFold fields key with
    | none => exact ih x
    | some f =>
      dsimp only
      cases f.set equalFold v x with
      | none => rfl
      | some y => exact ih y

theorem structMembers_eq_flatMap {T : Type} (fields : List (StructField T)) (x : T) :
    structMembers fields x
      = fields.flatMap fun f => if f.omitted x then [] else [(f.name, f.get x)] := by
  unfold structMembers
  induction fields with
  | nil => rfl
  | cons f fs ih =>
    rw [List.filterMap_cons, List.flatMap_cons, ih]
    cases f.omitted x <;> rfl

theorem decodeInt64_encodeInt64 (n old : Int) (h : -2 ^ 63 ≤ n ∧ n < 2 ^ 63) :
    decodeInt64 (encodeInt64 n) old = some n := by
  simp only [encodeInt64, decodeInt64, if_pos h]

theorem decodeBytesElems_map_encodeBytes (bs : List (Option (List Byte))) :
    decodeBytesElems (bs.map encodeBytes) = some bs := by
  induction bs with
  | nil => rfl
  | cons b bs ih =>
    simp only [List.map_cons, decodeBytesElems, decodeBytes_encodeBytes, ih, Option.map_some']

theorem decodeBytesList_encodeBytesList (bs : Option (List (Option (List Byte)))) :
    decodeBytesList (encodeBytesList bs) = some bs := by
  cases bs with
  | none => rfl
  | some l =>
    simp only [encodeBytesList, decodeBytesList, decodeBytesElems_map_encodeBytes,
      Option.map_some']

theorem Proof_store_total (equalFold : String → String → Bool) (p x : cmtcrypto.Proof)
    (h : -2 ^ 63 ≤ p.Total ∧ p.Total < 2 ^ 63) (hx : x.Total = 0) :
    storeMembers equalFold cmtcrypto.Proof.fields
        (if (p.Total == 0) = true then [] else [("total", encodeInt64 p.Total)]) x
      = some { x with Total := p.Total } := by
  by_cases h0 : p.Total = 0
  · simp [h0, storeMembers, ← hx]
  · simp [h0, storeMembers, findField, cmtcrypto.Proof.fields, decodeInt64_encodeInt64 _ _ h]

theorem Proof_store_index (equalFold : String → String → Bool) (p x : cmtcrypto.Proof)
    (h : -2 ^ 63 ≤ p.Index ∧ p.Index < 2 ^ 63) (hx : x.Index = 0) :
    storeMembers equalFold cmtcrypto.Proof.fields
        (if (p.Index == 0) = true then [] else [("index", encodeInt64 p.Index)]) x
      = some { x with Index := p.Index } := by
  by_cases h0 : p.Index = 0
  · simp [h0, storeMembers, ← hx]
  · simp [h0, storeMembers, findField, cmtcrypto.Proof.fields, decodeInt64_encodeInt64 _ _ h]

theorem Proof_store_leaf_hash (equalFold : String → String → Bool) (p x : cmtcrypto.Proof)
    (hx : x.LeafHash = none) :
    storeMembers equalFold cmtcrypto.Proof.fields
        (if isEmptySlice p.LeafHash = true then []
          else [("leaf_hash", encodeBytes p.LeafHash)]) x
      = some { x with LeafHash := if isEmptySlice p.LeafHash then none else p.LeafHash } := by
  by_cases h0 : isEmptySlice p.LeafHash = true
  · simp [h0, storeMembers, ← hx]
  · simp [h0, storeMembers, findField, cmtcrypto.Proof.fields, decodeBytes_encodeBytes]

theorem Proof_store_aunts (equalFold : String → String → Bool) (p x : cmtcrypto.Proof)
    (hx : x.Aunts = none) :
    storeMembers equalFold cmtcrypto.Proof.fields
        (if isEmptySlice p.Aunts = true then [] else [("aunts", encodeBytesList p.Aunts)]) x
      = some { x with Aunts := if isEmptySlice p.Aunts then none else p.Aunts } := by
  by_cases h0 : isEmptySlice p.Aunts = true
  · simp [h0, storeMembers, ← hx]
  · simp [h0, storeMembers, findField, cmtcrypto.Proof.fields,
      decodeBytesList_encodeBytesList]

/-- The members of the encoding of a proof, field by field. -/
theorem Proof_members_eq (p : cmtcrypto.Proof) :
    structMembers cmtcrypto.Proof.fields p
      = (if (p.Total == 0) = true then [] else [("total", encodeInt64 p.Total)])
        ++ ((if (p.Index == 0) = true then [] else [("index", encodeInt64 p.Index)])
        ++ ((if isEmptySlice p.LeafHash = true then []
              else [("leaf_hash", encodeBytes p.LeafHash)])
        ++ (if isEmptySlice p.Aunts = true then []
              else [("aunts", encodeBytesList p.Aunts)]))) := by
  simp only [structMembers_eq_flatMap, cmtcrypto.Proof.fields, List.flatMap_cons,
    List.flatMap_nil, List.append_nil]

/-- What storing the encoding of a proof into a new proof yields. -/
theorem proofCodec_store_members (equalFold : String → String → Bool) (p : cmtcrypto.Proof)
    (h : p.InRange) :
    proofCodec.store equalFold (.object (proofCodec.members p)) proofCodec.zero
      = some p.withoutEmpty := by
  show storeMembers equalFold cmtcrypto.Proof.fields
    (structMembers cmtcrypto.Proof.fields p) cmtcrypto.Proof.zero = some p.withoutEmpty
  rw [Proof_members_eq, storeMembers_append,
    Proof_store_total equalFold p _ h.1 rfl, Option.some_bind,
    storeMembers_append, Proof_store_index equalFold p _ h.2 rfl, Option.some_bind,
    storeMembers_append, Proof_store_leaf_hash equalFold p _ rfl, Option.some_bind,
    Proof_store_aunts equalFold p _ rfl]
  rfl

theorem Proof_withoutEmpty_slices (p : cmtcrypto.Proof) :
    p.withoutEmpty.Total = p.Total ∧ p.withoutEmpty.Index = p.Index ∧
    p.withoutEmpty.LeafHash.getD [] = p.LeafHash.getD [] ∧
    p.withoutEmpty.Aunts.getD [] = p.Aunts.getD [] := by
  obtain ⟨t, i, lh, au⟩ := p
  refine ⟨rfl, rfl, ?_, ?_⟩
  · rcases lh with _ | _ | ⟨b, bs⟩ <;> rfl
  · rcases au with _ | _ | ⟨b, bs⟩ <;> rfl

theorem Proof_withoutEmpty_eq_iff (p : cmtcrypto.Proof) :
    p.withoutEmpty = p ↔ p.LeafHash ≠ some [] ∧ p.Aunts ≠ some [] := by
  obtain ⟨t, i, lh, au⟩ := p
  rcases lh with _ | _ | ⟨b, bs⟩ <;> rcases au with _ | _ | ⟨c, cs⟩ <;>
    simp [cmtcrypto.Proof.withoutEmpty, isEmptySlice]

/-- Reading back the encoding of a proof pointer: the nil pointer stays nil, and a proof
comes back as the codec of the proof structure reads back what it wrote. -/
theorem unmarshalPtr_marshalPtr {P : Type} (pc : ProofCodec P)
    (equalFold : String → String → Bool) (proof : Option P) (back : P → P)
    (hp : ∀ p, proof = some p →
      pc.store equalFold (.object (pc.members p)) pc.zero = some (back p)) :
    unmarshalPtr (pc.store equalFold) pc.zero
      (marshalPtr (fun x => .object (pc.members x)) proof) none = some (proof.map back) := by
  cases proof with
  | none => rfl
  | some p =>
    simp only [marshalPtr, unmarshalPtr, Option.getD_none, hp p rfl, Option.map_some']

/-- What decoding the encoding of a finality-signature message yields. -/
theorem SubmitFinalitySignatureMsg_unmarshal_marshal {P : Type} (pc : ProofCodec P)
    (equalFold : String → String → Bool) (m : SubmitFinalitySignatureMsg P) (back : P → P)
    (h : m.SubmitFinalitySignature.Height < 2 ^ 64)
    (hp : ∀ p, m.SubmitFinalitySignature.Proof = some p →
      pc.store equalFold (.object (pc.members p)) pc.zero = some (back p)) :
    SubmitFinalitySignatureMsg.Unmarshal pc equalFold (SubmitFinalitySignatureMsg.Marshal pc m)
      = some ⟨⟨encodeRunes (runesFrom 0 m.SubmitFinalitySignature.FpPubkeyHex),
          m.SubmitFinalitySignature.Height, m.SubmitFinalitySignature.PubRand,
          m.SubmitFinalitySignature.Proof.map back, m.SubmitFinalitySignature.BlockHash,
          m.SubmitFinalitySignature.Signature⟩⟩ := by
  rw [SubmitFinalitySignatureMsg_marshal_eq]
  simp only [SubmitFinalitySignatureMsg.Unmarshal, unmarshalStruct]
  apply SubmitFinalitySignatureMsg_store_members
  simp only [unmarshalStruct]
  exact SubmitFinalitySignatureMsgParams_store_members pc equalFold _ _ _ _ _ _ _ _ _ _ _ _ _
    rfl (decodeUint64_encodeUint64 _ _ h) (decodeBytes_encodeBytes _)
    (unmarshalPtr_marshalPtr pc equalFold _ back hp) (decodeBytes_encodeBytes _)
    (decodeBytes_encodeBytes _)

/-- C6, as amended: for a finality-signature message with a `uint64` height and a proof
that is absent or has `int64` numbers, decoding the JSON encoding succeeds; it keeps the
height, the byte strings `pub_rand`, `block_hash` and `signature` (nil and empty ones
included), an absent proof stays absent, and a present proof comes back present with the
same total, index, leaf-hash bytes and aunts, a leaf hash or list of aunts of length 0
coming back nil.  It yields the message itself exactly when `fp_pubkey_hex` is valid
UTF-8 and the proof, if present, has neither an empty non-nil leaf hash nor an empty
non-nil list of aunts. -/
theorem SubmitFinalitySignatureMsg_roundtrip (equalFold : String → String → Bool)
    (m : SubmitFinalitySignatureMsg cmtcrypto.Proof)
    (h : m.SubmitFinalitySignature.Height < 2 ^ 64)
    (hp : ∀ p, m.SubmitFinalitySignature.Proof = some p → p.InRange) :
    (∃ r, SubmitFinalitySignatureMsg.Unmarshal proofCodec equalFold
          (SubmitFinalitySignatureMsg.Marshal proofCodec m) = some r ∧
      r.SubmitFinalitySignature.Height = m.SubmitFinalitySignature.Height ∧
      r.SubmitFinalitySignature.PubRand = m.SubmitFinalitySignature.PubRand ∧
      r.SubmitFinalitySignature.BlockHash = m.SubmitFinalitySignature.BlockHash ∧
      r.SubmitFinalitySignature.Signature = m.SubmitFinalitySignature.Signature ∧
      (m.SubmitFinalitySignature.Proof = none → r.SubmitFinalitySignature.Proof = none) ∧
      (∀ p, m.SubmitFinalitySignature.Proof = some p →
        ∃ q, r.SubmitFinalitySignature.Proof = some q ∧ q = p.withoutEmpty ∧
          q.Total = p.Total ∧ q.Index = p.Index ∧
          q.LeafHash.getD [] = p.LeafHash.getD [] ∧ q.Aunts.getD [] = p.Aunts.getD [])) ∧
    (SubmitFinalitySignatureMsg.Unmarshal proofCodec equalFold
        (SubmitFinalitySignatureMsg.Marshal proofCodec m) = some m
      ↔ IsUTF8 m.SubmitFinalitySignature.FpPubkeyHex ∧
        ∀ p, m.SubmitFinalitySignature.Proof = some p →
          p.LeafHash ≠ some [] ∧ p.Aunts ≠ some []) := by
  rw [SubmitFinalitySignatureMsg_unmarshal_marshal proofCodec equalFold m
    cmtcrypto.Proof.withoutEmpty h
    (fun p hpm => proofCodec_store_members equalFold p (hp p hpm))]
  obtain ⟨⟨fp, ht, pr, pf, bh, sg⟩⟩ := m
  constructor
  · refine ⟨_, rfl, rfl, rfl, rfl, rfl, ?_, ?_⟩
    · intro hnone
      simp only at hnone
      simp only [hnone, Option.map_none']
    · intro p hsome
      simp only at hsome
      simp only [hsome, Option.map_some']
      exact ⟨_, rfl, rfl, Proof_withoutEmpty_slices p⟩
  · simp only [Option.some.injEq, SubmitFinalitySignatureMsg.mk.injEq,
      SubmitFinalitySignatureMsgParams.mk.injEq, true_and, and_true]
    rw [encodeRunes_runesFrom_iff]
    apply and_congr_right
    intro _
    cases pf with
    | none => simp
    | some p =>
      simp only [Option.map_some', Option.some.injEq, forall_eq']
      exact Proof_withoutEmpty_eq_iff p

/-- Witness of C6 as amended: a message with a proof of three aunts, one of them empty
and one nil, an empty block hash and a nil signature. -/
theorem SubmitFinalitySignatureMsg_roundtrip_witness :
    SubmitFinalitySignatureMsg.Unmarshal proofCodec demo.equalFold
      (SubmitFinalitySignatureMsg.Marshal proofCodec demo.finalitySigMsg)
      = some demo.finalitySigMsg :=
  (SubmitFinalitySignatureMsg_roundtrip demo.equalFold demo.finalitySigMsg (by decide)
    (fun p hp => by cases hp; exact ⟨by decide, by decide⟩)).2.2
    ⟨⟨"02ab".data, rfl⟩, fun p hp => by cases hp; exact ⟨by decide, by decide⟩⟩

/-- Counterexample to C6 as stated: a key that is not valid UTF-8 comes back as U+FFFD,
and the empty, non-nil leaf hash of a proof comes back nil. -/
theorem SubmitFinalitySignatureMsg_roundtrip_fails :
    SubmitFinalitySignatureMsg.Unmarshal proofCodec demo.equalFold
        (SubmitFinalitySignatureMsg.Marshal proofCodec demo.finalitySigMsgBadKey)
      = some ⟨⟨[0xEF, 0xBF, 0xBD], 50, none, none, none, none⟩⟩ ∧
    SubmitFinalitySignatureMsg.Unmarshal proofCodec demo.equalFold
        (SubmitFinalitySignatureMsg.Marshal proofCodec demo.finalitySigMsgBadKey)
      ≠ some demo.finalitySigMsgBadKey ∧
    SubmitFinalitySignatureMsg.Unmarshal proofCodec demo.equalFold
        (SubmitFinalitySignatureMsg.Marshal proofCodec demo.finalitySigMsgEmptyLeaf)
      = some ⟨⟨goStr "02ab", 50, none, some ⟨1, 0, none, none⟩, none, none⟩⟩ ∧
    SubmitFinalitySignatureMsg.Unmarshal proofCodec demo.equalFold
        (SubmitFinalitySignatureMsg.Marshal proofCodec demo.finalitySigMsgEmptyLeaf)
      ≠ some demo.finalitySigMsgEmptyLeaf := by decide

/-- C7: the encoding of a commit message is an object with the single key
"commit_public_randomness", holding an object with exactly the keys fp_pubkey_hex,
start_height, num_pub_rand, commitment, signature; the encoding of a finality-signature
message is an object with the single key "submit_finality_signature", holding an object
with exactly the keys fp_pubkey_hex, height, pub_rand, proof, block_hash, signature.  No
key is left out, whatever the values of the fields. -/
theorem execute_envelope_keys {P : Type} (pc : ProofCodec P)
    (c : CommitPublicRandomnessMsg) (s : SubmitFinalitySignatureMsg P) :
    (CommitPublicRandomnessMsg.Marshal c).keys = some ["commit_public_randomness"] ∧
    ((CommitPublicRandomnessMsg.Marshal c).get? "commit_public_randomness").bind Value.keys
      = some ["fp_pubkey_hex", "start_height", "num_pub_rand", "commitment", "signature"] ∧
    (SubmitFinalitySignatureMsg.Marshal pc s).keys = some ["submit_finality_signature"] ∧
    ((SubmitFinalitySignatureMsg.Marshal pc s).get? "submit_finality_signature").bind
        Value.keys
      = some ["fp_pubkey_hex", "height", "pub_rand", "proof", "block_hash", "signature"] :=
  ⟨rfl, rfl, rfl, rfl⟩

/-! ### The query envelopes and their responses -/

/-- Counterexample to C8 as stated: a `QueryMsg` with neither field populated is encoded
as the empty object, and one with both populated as an object with two keys. -/
theorem QueryMsg_marshal_not_one_key :
    (QueryMsg.Marshal ⟨none, none⟩).keys = some [] ∧
    (QueryMsg.Marshal ⟨some ⟨⟩, some ⟨goStr "02ab"⟩⟩).keys
      = some ["config", "last_pub_rand_commit"] := ⟨rfl, rfl⟩

/-- C8, as amended: the encoding of a `QueryMsg` holds one key for each populated field
and none for an unpopulated one.  With only `Config` populated it is the object with the
single key "config" and value the empty object; with only `LastPubRandCommit` populated it
is the object with the single key "last_pub_rand_commit", whose value is an object with
exactly the key btc_pk_hex; it has exactly one key iff exactly one field is populated. -/
theorem QueryMsg_marshal_keys (q : QueryMsg) (c : Config) (l : LastPubRandCommit) :
    QueryMsg.Marshal ⟨some c, none⟩ = .object [("config", .object [])] ∧
    QueryMsg.Marshal ⟨none, some l⟩
      = .object [("last_pub_rand_commit", .object [("btc_pk_hex", encodeString l.BtcPkHex)])] ∧
    (QueryMsg.Marshal q).keys
      = some ((if q.Config.isSome then ["config"] else [])
          ++ (if q.LastPubRandCommit.isSome then ["last_pub_rand_commit"] else [])) ∧
    ((∃ k, (QueryMsg.Marshal q).keys = some [k])
      ↔ (q.Config.isSome = true ∧ q.LastPubRandCommit = none) ∨
        (q.Config = none ∧ q.LastPubRandCommit.isSome = true)) := by
  refine ⟨rfl, rfl, ?_, ?_⟩
  · obtain ⟨_ | qc, _ | ql⟩ := q <;> rfl
  · obtain ⟨_ | qc, _ | ql⟩ := q <;>
      simp [QueryMsg.Marshal, marshalStruct, QueryMsg.fields, Value.keys]

/-- The encoding of a query with only `Config` populated. -/
theorem QueryMsg_marshal_config (c : Config) :
    QueryMsg.Marshal ⟨some c, none⟩ = .object [("config", .object [])] := rfl

/-- The encoding of a query with only `LastPubRandCommit` populated. -/
theorem QueryMsg_marshal_last (l : LastPubRandCommit) :
    QueryMsg.Marshal ⟨none, some l⟩
      = .object [("last_pub_rand_commit", .object [("btc_pk_hex", encodeString l.BtcPkHex)])] :=
  rfl

theorem LastPubRandCommit_store_members (equalFold : String → String → Bool) (v : Value)
    (old : LastPubRandCommit) (a : GoString) (h : decodeString v old.BtcPkHex = some a) :
    storeMembers equalFold LastPubRandCommit.fields [("btc_pk_hex", v)] old = some ⟨a⟩ := by
  simp [storeMembers, findField, LastPubRandCommit.fields, h]

theorem QueryMsg_store_config (equalFold : String → String → Bool) (v : Value)
    (old : QueryMsg) (c : Option Config)
    (h : unmarshalPtr (unmarshalStruct equalFold Config.fields) ⟨⟩ v old.Config = some c) :
    storeMembers equalFold QueryMsg.fields [("config", v)] old
      = some ⟨c, old.LastPubRandCommit⟩ := by
  simp [storeMembers, findField, QueryMsg.fields, h]

theorem QueryMsg_store_last (equalFold : String → String → Bool) (v : Value)
    (old : QueryMsg) (l : Option LastPubRandCommit)
    (h : unmarshalPtr (unmarshalStruct equalFold LastPubRandCommit.fields) ⟨[]⟩ v
      old.LastPubRandCommit = some l) :
    storeMembers equalFold QueryMsg.fields [("last_pub_rand_commit", v)] old
      = some ⟨old.Config, l⟩ := by
  simp [storeMembers, findField, QueryMsg.fields, h]

theorem ConfigResponse_store_members (equalFold : String → String → Bool) (v1 v2 : Value)
    (old : ConfigResponse) (a : GoString) (b : Nat)
    (h1 : decodeString v1 old.ConsumerId = some a)
    (h2 : decodeUint64 v2 old.ActivatedHeight = some b) :
    storeMembers equalFold ConfigResponse.fields
      [("consumer_id", v1), ("activated_height", v2)] old = some ⟨a, b⟩ := by
  simp [storeMembers, findField, ConfigResponse.fields, h1, h2]

theorem LastPubRandCommitResponse_store_members (equalFold : String → String → Bool)
    (v1 v2 v3 : Value) (old : LastPubRandCommitResponse) (a b : Nat)
    (c : Option (List Byte))
    (h1 : decodeUint64 v1 old.StartHeight = some a)
    (h2 : decodeUint64 v2 old.NumPubRand = some b)
    (h3 : decodeBytes v3 = some c) :
    storeMembers equalFold LastPubRandCommitResponse.fields
      [("start_height", v1), ("num_pub_rand", v2), ("commitment", v3)] old
      = some ⟨a, b, c⟩ := by
  simp [storeMembers, findField, LastPubRandCommitResponse.fields, h1, h2, h3]

/-- What decoding the encoding of a query for the last commit yields. -/
theorem QueryMsg_unmarshal_marshal_last (equalFold : String → String → Bool)
    (l : LastPubRandCommit) :
    QueryMsg.Unmarshal equalFold (QueryMsg.Marshal ⟨none, some l⟩)
      = some ⟨none, some ⟨encodeRunes (runesFrom 0 l.BtcPkHex)⟩⟩ := by
  rw [QueryMsg_marshal_last]
  simp only [QueryMsg.Unmarshal, unmarshalStruct]
  apply QueryMsg_store_last
  simp only [unmarshalPtr, unmarshalStruct, Option.getD_none]
  rw [LastPubRandCommit_store_members equalFold (encodeString l.BtcPkHex) ⟨[]⟩
    (encodeRunes (runesFrom 0 l.BtcPkHex)) rfl]
  rfl

/-- What decoding the encoding of a `ConfigResponse` yields. -/
theorem ConfigResponse_unmarshal_marshal (equalFold : String → String → Bool)
    (r : ConfigResponse) (h : r.ActivatedHeight < 2 ^ 64) :
    ConfigResponse.Unmarshal equalFold (ConfigResponse.Marshal r)
      = some ⟨encodeRunes (runesFrom 0 r.ConsumerId), r.ActivatedHeight⟩ := by
  have hm : ConfigResponse.Marshal r = .object
      [("consumer_id", encodeString r.ConsumerId),
       ("activated_height", encodeUint64 r.ActivatedHeight)] := rfl
  rw [hm]
  simp only [ConfigResponse.Unmarshal, unmarshalStruct]
  exact ConfigResponse_store_members equalFold _ _ _ _ _ rfl
    (decodeUint64_encodeUint64 _ _ h)

/-- C9, as amended: decoding the JSON encoding gives back the original value for a
`QueryMsg` with only `Config` populated, for a `QueryMsg` with only `LastPubRandCommit`
populated exactly when btc_pk_hex is valid UTF-8, for a `ConfigResponse` with a `uint64`
height exactly when consumer_id is valid UTF-8, and for a `LastPubRandCommitResponse`
with `uint64` fields and a commitment of any length; the populated alternative of a query
stays the populated one in every case. -/
theorem query_roundtrip (equalFold : String → String → Bool) (c : Config)
    (l : LastPubRandCommit) (cr : ConfigResponse) (lr : LastPubRandCommitResponse)
    (hc : cr.ActivatedHeight < 2 ^ 64) (hs : lr.StartHeight < 2 ^ 64)
    (hn : lr.NumPubRand < 2 ^ 64) :
    QueryMsg.Unmarshal equalFold (QueryMsg.Marshal ⟨some c, none⟩) = some ⟨some c, none⟩ ∧
    (∃ l', QueryMsg.Unmarshal equalFold (QueryMsg.Marshal ⟨none, some l⟩)
      = some ⟨none, some l'⟩) ∧
    (QueryMsg.Unmarshal equalFold (QueryMsg.Marshal ⟨none, some l⟩) = some ⟨none, some l⟩
      ↔ IsUTF8 l.BtcPkHex) ∧
    (ConfigResponse.Unmarshal equalFold (ConfigResponse.Marshal cr) = some cr
      ↔ IsUTF8 cr.ConsumerId) ∧
    LastPubRandCommitResponse.Unmarshal equalFold (LastPubRandCommitResponse.Marshal lr)
      = some lr := by
  refine ⟨?_, ⟨_, QueryMsg_unmarshal_marshal_last equalFold l⟩, ?_, ?_, ?_⟩
  · rw [QueryMsg_marshal_config]
    simp only [QueryMsg.Unmarshal, unmarshalStruct]
    exact QueryMsg_store_config equalFold _ _ _ rfl
  · rw [QueryMsg_unmarshal_marshal_last]
    obtain ⟨pk⟩ := l
    simp only [Option.some.injEq, QueryMsg.mk.injEq, LastPubRandCommit.mk.injEq, true_and]
    exact encodeRunes_runesFrom_iff pk
  · rw [ConfigResponse_unmarshal_marshal equalFold cr hc]
    obtain ⟨id, ht⟩ := cr
    simp only [Option.some.injEq, ConfigResponse.mk.injEq, and_true]
    exact encodeRunes_runesFrom_iff id
  · have hm : LastPubRandCommitResponse.Marshal lr = .object
        [("start_height", encodeUint64 lr.StartHeight),
         ("num_pub_rand", encodeUint64 lr.NumPubRand),
         ("commitment", encodeBytes lr.Commitment)] := rfl
    rw [hm]
    simp only [LastPubRandCommitResponse.Unmarshal, unmarshalStruct]
    exact LastPubRandCommitResponse_store_members equalFold _ _ _ _ _ _ _
      (decodeUint64_encodeUint64 _ _ hs) (decodeUint64_encodeUint64 _ _ hn)
      (decodeBytes_encodeBytes _)

/-- Witness of C9 as amended: a query for a hexadecimal key, a response with the largest
height, and a response with a commitment of 32 bytes. -/
theorem query_roundtrip_witness :
    QueryMsg.Unmarshal demo.equalFold (QueryMsg.Marshal ⟨none, some ⟨goStr "02ab"⟩⟩)
      = some ⟨none, some ⟨goStr "02ab"⟩⟩ ∧
    ConfigResponse.Unmarshal demo.equalFold
        (ConfigResponse.Marshal ⟨goStr "op-stack-l2-706114", 2 ^ 64 - 1⟩)
      = some ⟨goStr "op-stack-l2-706114", 2 ^ 64 - 1⟩ ∧
    LastPubRandCommitResponse.Unmarshal demo.equalFold
        (LastPubRandCommitResponse.Marshal ⟨100, 100, some (List.replicate 32 7)⟩)
      = some ⟨100, 100, some (List.replicate 32 7)⟩ :=
  have h := query_roundtrip demo.equalFold ⟨⟩ ⟨goStr "02ab"⟩
    ⟨goStr "op-stack-l2-706114", 2 ^ 64 - 1⟩ ⟨100, 100, some (List.replicate 32 7)⟩
    (by decide) (by decide) (by decide)
  ⟨h.2.2.1.2 ⟨"02ab".data, rfl⟩, h.2.2.2.1.2 ⟨"op-stack-l2-706114".data, rfl⟩, h.2.2.2.2⟩

/-- Counterexample to C9 as stated: a query whose btc_pk_hex is the byte `0xff`, and a
response whose consumer_id is the byte `0xc0`, do not come back as they were. -/
theorem query_roundtrip_invalid_utf8 :
    QueryMsg.Unmarshal demo.equalFold (QueryMsg.Marshal ⟨none, some ⟨[0xff]⟩⟩)
      = some ⟨none, some ⟨[0xEF, 0xBF, 0xBD]⟩⟩ ∧
    QueryMsg.Unmarshal demo.equalFold (QueryMsg.Marshal ⟨none, some ⟨[0xff]⟩⟩)
      ≠ some ⟨none, some ⟨[0xff]⟩⟩ ∧
    ConfigResponse.Unmarshal demo.equalFold (ConfigResponse.Marshal ⟨[0xc0], 7⟩)
      ≠ some ⟨[0xc0], 7⟩ := by decide

end opstackl2

/-! ## Properties of the polling conditions -/

namespace e2etest

/-- C10: the vote-count condition of `CheckBlockFinalization` is an exact match: on a
successful query it holds iff `len(votes) == num`; it fails with fewer votes and with more
votes; with 3 votes of 4 it fails and with the 4th vote it holds. -/
theorem votesCollected_exact {V : Type} (votes : List V) (num : Int) (v1 v2 v3 v4 : V) :
    (votesCollected (votes, none) num = true ↔ (votes.length : Int) = num) ∧
    ((votes.length : Int) < num → votesCollected (votes, none) num = false) ∧
    (num < (votes.length : Int) → votesCollected (votes, none) num = false) ∧
    votesCollected ([v1, v2, v3], none) 4 = false ∧
    votesCollected ([v1, v2, v3, v4], none) 4 = true := by
  refine ⟨?_, ?_, ?_, ?_, ?_⟩
  · simp [votesCollected]
  · intro h
    simp only [votesCollected, decide_eq_false_iff_not]
    omega
  · intro h
    simp only [votesCollected, decide_eq_false_iff_not]
    omega
  · simp [votesCollected]
  · simp [votesCollected]

/-- Witness of C10: two votes of three expected, and four votes of three expected. -/
theorem votesCollected_exact_witness :
    votesCollected ([1, 2], (none : Option GoError)) 3 = false ∧
    votesCollected ([1, 2, 3, 4], (none : Option GoError)) 3 = false :=
  ⟨(votesCollected_exact [1, 2] 3 0 0 0 0).2.1 (by decide),
   (votesCollected_exact [1, 2, 3, 4] 3 0 0 0 0).2.2.1 (by decide)⟩

/-! ### Vote sets -/

theorem RecordVote_other {P : Type} [DecidableEq P] (sets : VoteSets P) (height h : Nat)
    (p : P) (hne : height ≠ h) : RecordVote sets height p h = sets h := by
  simp only [RecordVote, if_neg (Ne.symm hne)]

theorem RecordVote_repeated {P : Type} [DecidableEq P] (sets : VoteSets P) (h : Nat) (p : P)
    (hp : p ∈ sets h) : RecordVote sets h p h = sets h := by
  simp only [RecordVote, if_true, if_pos hp]

theorem RecordVote_new {P : Type} [DecidableEq P] (sets : VoteSets P) (h : Nat) (p : P)
    (hp : p ∉ sets h) : RecordVote sets h p h = sets h ++ [p] := by
  simp only [RecordVote, if_true, if_neg hp]

theorem recordVotes_same {P : Type} [DecidableEq P] (h : Nat) (ops : List (Nat × P)) :
    ∀ sets : VoteSets P, (∀ op ∈ ops, op.1 ≠ h ∨ op.2 ∈ sets h) →
      recordVotes sets ops h = sets h := by
  induction ops with
  | nil => intro sets _; rfl
  | cons op ops ih =>
    intro sets hops
    have h1 : RecordVote sets op.1 op.2 h = sets h := by
      rcases hops op (List.mem_cons_self _ _) with hne | hmem
      · exact RecordVote_other sets op.1 h op.2 hne
      · by_cases he : op.1 = h
        · subst he; exact RecordVote_repeated sets op.1 op.2 hmem
        · exact RecordVote_other sets op.1 h op.2 he
    have h2 := ih (RecordVote sets op.1 op.2) (by
      intro o ho
      rw [h1]
      exact hops o (List.mem_cons_of_mem _ ho))
    simp only [recordVotes, List.foldl_cons] at h2 ⊢
    rw [h2, h1]

/-- C11, as amended: once the finalization check is true for a height, it remains true
for that height after any further sequence of `RecordVote` operations that are votes for
other heights or repeated votes of providers already in the vote set of the height; and
it becomes false when one more distinct provider votes for the height, since the check is
the exact comparison `len(votes) == n`. -/
theorem IsFinalized_stable {P : Type} [DecidableEq P] (sets : VoteSets P) (h : Nat)
    (n : Int) (hfin : IsFinalized sets h n = true) :
    (∀ ops : List (Nat × P), (∀ op ∈ ops, op.1 ≠ h ∨ op.2 ∈ sets h) →
      IsFinalized (recordVotes sets ops) h n = true) ∧
    (∀ p : P, p ∉ sets h → IsFinalized (RecordVote sets h p) h n = false) := by
  constructor
  · intro ops hops
    simp only [IsFinalized, recordVotes_same h ops sets hops]
    exact hfin
  · intro p hp
    simp only [IsFinalized, votesCollected, decide_eq_true_eq] at hfin
    simp only [IsFinalized, votesCollected, RecordVote_new sets h p hp, List.length_append,
      List.length_singleton, decide_eq_false_iff_not]
    omega

/-- Witness of C11 as amended: with the four votes expected at height 50 in, a vote at
height 51 and a repeated vote at height 50 leave the block finalized. -/
theorem IsFinalized_stable_witness :
    IsFinalized (recordVotes demo.fourVotes [(51, 9), (50, 1)]) 50 4 = true :=
  (IsFinalized_stable demo.fourVotes 50 4 (by decide)).1 [(51, 9), (50, 1)] (by decide)

/-- Counterexample to C11 as stated: with 4 votes expected at height 50 the check is true
after the fourth vote and false after a fifth provider has voted at that height. -/
theorem IsFinalized_not_monotonic :
    IsFinalized demo.fourVotes 50 4 = true ∧
    IsFinalized (recordVotes demo.fourVotes [(50, 5)]) 50 4 = false := by
  decide

/-! ### Delegations -/

theorem CheckDelsStatus_foldl {D S : Type} [DecidableEq S] (GetStatus : D → Nat → Nat → S)
    (btcHeight w : Nat) (status : S) (dels : List D) :
    ∀ b : Bool,
      dels.foldl
          (fun allChecked d => if GetStatus d btcHeight w ≠ status then false else allChecked) b
        = (b && dels.all fun d => decide (GetStatus d btcHeight w = status)) := by
  induction dels with
  | nil => intro b; simp
  | cons d dels ih =>
    intro b
    rw [List.foldl_cons, ih, List.all_cons]
    by_cases hd : GetStatus d btcHeight w = status
    · simp [hd]
    · simp [hd]

theorem CheckDelsStatus_iff {D S : Type} [DecidableEq S] (GetStatus : D → Nat → Nat → S)
    (dels : List D) (btcHeight w : Nat) (status : S) :
    CheckDelsStatus GetStatus dels btcHeight w status = true
      ↔ ∀ d ∈ dels, GetStatus d btcHeight w = status := by
  rw [CheckDelsStatus, CheckDelsStatus_foldl]
  simp

/-- C14: `CheckDelsStatus` returns true iff every delegation of the list has the given
status; it returns true for the empty list, false when some delegation, at whatever
position, has another status, and the same result for every reordering of the list. -/
theorem CheckDelsStatus_all {D S : Type} [DecidableEq S] (GetStatus : D → Nat → Nat → S)
    (dels : List D) (btcHeight w : Nat) (status : S) :
    (CheckDelsStatus GetStatus dels btcHeight w status = true
      ↔ ∀ d ∈ dels, GetStatus d btcHeight w = status) ∧
    CheckDelsStatus GetStatus [] btcHeight w status = true ∧
    (∀ (front back : List D) (d : D), GetStatus d btcHeight w ≠ status →
      CheckDelsStatus GetStatus (front ++ d :: back) btcHeight w status = false) ∧
    (∀ dels' : List D, dels.Perm dels' →
      CheckDelsStatus GetStatus dels' btcHeight w status
        = CheckDelsStatus GetStatus dels btcHeight w status) := by
  refine ⟨CheckDelsStatus_iff GetStatus dels btcHeight w status, rfl, ?_, ?_⟩
  · intro front back d hd
    rw [← Bool.not_eq_true, CheckDelsStatus_iff]
    intro hall
    exact hd (hall d (by simp))
  · intro dels' hperm
    rw [Bool.eq_iff_iff, CheckDelsStatus_iff, CheckDelsStatus_iff]
    constructor
    · intro hall d hd
      exact hall d (hperm.mem_iff.1 hd)
    · intro hall d hd
      exact hall d (hperm.mem_iff.2 hd)

/-- C12: with the status ACTIVE iff `currentBtcHeight - inclusionHeight >= w` and PENDING
otherwise, for all heights and all `w`, those of `uint64` among them, a delegation that
is ACTIVE at height `h` is ACTIVE at every height `h' >= h`, and so if
`CheckDelsStatus(dels, h, w, ACTIVE)` is true then `CheckDelsStatus(dels, h', w, ACTIVE)`
is true. -/
theorem CheckDelsStatus_active_mono {Sig : Type} (dels : List (BTCDelegation Sig))
    (w h h' : Nat) (hh : h ≤ h')
    (hact : CheckDelsStatus BTCDelegation.GetStatus dels h w BTCDelegationStatus.ACTIVE = true) :
    CheckDelsStatus BTCDelegation.GetStatus dels h' w BTCDelegationStatus.ACTIVE = true ∧
    (∀ d : BTCDelegation Sig, d.GetStatus h w = BTCDelegationStatus.ACTIVE →
      d.GetStatus h' w = BTCDelegationStatus.ACTIVE) := by
  have hmono : ∀ d : BTCDelegation Sig, d.GetStatus h w = BTCDelegationStatus.ACTIVE →
      d.GetStatus h' w = BTCDelegationStatus.ACTIVE := by
    intro d hd
    simp only [BTCDelegation.GetStatus] at hd ⊢
    split_ifs at hd with hdepth
    rw [if_pos (by omega)]
  refine ⟨?_, hmono⟩
  rw [CheckDelsStatus_iff] at hact ⊢
  intro d hd
  exact hmono d (hact d hd)

/-- Witness of C12: two delegations included at heights 10 and 12, `w = 6`, from height
18 to the largest `uint64`. -/
theorem CheckDelsStatus_active_mono_witness :
    CheckDelsStatus BTCDelegation.GetStatus [demo.delegation10, demo.delegation12]
      (2 ^ 64 - 1) 6 BTCDelegationStatus.ACTIVE = true :=
  (CheckDelsStatus_active_mono [demo.delegation10, demo.delegation12] 6 18 (2 ^ 64 - 1)
    (by decide) (by decide)).1

/-- Witness of C14: a list with one delegation that is still PENDING at height 17, in
both orders. -/
theorem CheckDelsStatus_all_witness :
    CheckDelsStatus BTCDelegation.GetStatus [demo.delegation12, demo.delegation10] 17 6
        BTCDelegationStatus.ACTIVE
      = CheckDelsStatus BTCDelegation.GetStatus [demo.delegation10, demo.delegation12] 17 6
        BTCDelegationStatus.ACTIVE ∧
    CheckDelsStatus BTCDelegation.GetStatus ([demo.delegation10] ++ demo.delegation12 :: []) 17
        6 BTCDelegationStatus.ACTIVE = false :=
  ⟨(CheckDelsStatus_all BTCDelegation.GetStatus [demo.delegation10, demo.delegation12] 17 6
      BTCDelegationStatus.ACTIVE).2.2.2 _ (List.Perm.swap _ _ _),
   (CheckDelsStatus_all BTCDelegation.GetStatus [demo.delegation10, demo.delegation12] 17 6
      BTCDelegationStatus.ACTIVE).2.2.1 [demo.delegation10] [] demo.delegation12
      (by decide)⟩

/-- C17, at the failing input: with one unbonding delegation returned, the condition
polled by `WaitForValNUnbondingDels` holds for `n = 2` (and for every `n`), although there
are not 2 delegations; the condition of `WaitForValNActiveDels` fails there. -/
theorem unbondingDelsCondition_ignores_n :
    unbondingDelsCondition ([demo.unbondingDelegation], none) 2 = true ∧
    ¬ nUnbondingDels [demo.unbondingDelegation] 2 ∧
    (∀ (res : List (BTCDelegation Unit) × Option GoError) (n m : Int),
      unbondingDelsCondition res n = unbondingDelsCondition res m) ∧
    activeDelsCondition BTCDelegation.GetStatus BTCDelegationStatus.ACTIVE
      ([demo.unbondingDelegation], none) 20 6 2 = false :=
  ⟨by decide, fun h => absurd h.1 (by decide), fun _ _ _ => rfl, by decide⟩

/-! ### The node process -/

theorem cleanup_result (sys : Sys) (n : wasmdNode) (trace : List SysCall) :
    (n.cleanup sys trace).1 = none := rfl

/-- The removals `cleanup` makes: the pid file when one is recorded, then the data directory. -/
theorem cleanup_removals (sys : Sys) (n : wasmdNode) (trace : List SysCall) :
    (n.cleanup sys trace).2.filter SysCall.isRemoval
      = trace.filter SysCall.isRemoval
        ++ (if n.pidFile ≠ [] then [SysCall.Remove n.pidFile] else [])
        ++ [SysCall.RemoveAll n.dataDir] := by
  simp only [wasmdNode.cleanup, Sys.call, List.foldl_cons, List.foldl_nil]
  by_cases hp : n.pidFile = []
  · simp only [hp, ne_eq, not_true_eq_false, if_false, List.append_nil]
    cases sys.result trace (SysCall.RemoveAll n.dataDir) <;>
      simp [List.filter_append, SysCall.isRemoval]
  · simp only [ne_eq, hp, not_false_eq_true, if_true]
    cases sys.result trace (SysCall.Remove n.pidFile) with
    | none =>
      cases sys.result (trace ++ [SysCall.Remove n.pidFile]) (SysCall.RemoveAll n.dataDir) <;>
        simp [List.filter_append, SysCall.isRemoval]
    | some e =>
      cases sys.result (trace ++ [SysCall.Remove n.pidFile] ++
          [SysCall.Printf (goStr "unable to remove file %s: %v") n.pidFile e])
        (SysCall.RemoveAll n.dataDir) <;>
        simp [List.filter_append, SysCall.isRemoval]

/-- The calls `cleanup` makes are added to those made before. -/
theorem cleanup_extends (sys : Sys) (n : wasmdNode) (trace : List SysCall) :
    ∃ rest, (n.cleanup sys trace).2 = trace ++ rest := by
  simp only [wasmdNode.cleanup, Sys.call, List.foldl_cons, List.foldl_nil]
  by_cases hp : n.pidFile = []
  · simp only [hp, ne_eq, not_true_eq_false, if_false]
    cases sys.result trace (SysCall.RemoveAll n.dataDir) <;>
      (simp only [List.append_assoc]; exact ⟨_, rfl⟩)
  · simp only [ne_eq, hp, not_false_eq_true, if_true]
    cases sys.result trace (SysCall.Remove n.pidFile) with
    | none =>
      cases sys.result (trace ++ [SysCall.Remove n.pidFile]) (SysCall.RemoveAll n.dataDir) <;>
        (simp only [List.append_assoc]; exact ⟨_, rfl⟩)
    | some e =>
      cases sys.result (trace ++ [SysCall.Remove n.pidFile] ++
          [SysCall.Printf (goStr "unable to remove file %s: %v") n.pidFile e])
        (SysCall.RemoveAll n.dataDir) <;>
        (simp only [List.append_assoc]; exact ⟨_, rfl⟩)

/-- C13: `shutdown` runs `stop` first.  When `stop` returns an error, `shutdown` returns
that error and makes no further call.  When `stop` returns nil, `shutdown` continues as
`cleanup` does, once, and returns what `cleanup` returns: the removals made are that of
the pid file, when one is recorded, and that of the data directory.  `shutdown` returns
an error iff `stop` does. -/
theorem shutdown_stop_then_cleanup (sys : Sys) (n : wasmdNode) (trace : List SysCall) :
    (∀ err, (n.stop sys trace).1 = some err →
      n.shutdown sys trace = (some err, (n.stop sys trace).2)) ∧
    ((n.stop sys trace).1 = none →
      n.shutdown sys trace = n.cleanup sys (n.stop sys trace).2 ∧
      (n.shutdown sys trace).2.filter SysCall.isRemoval
        = (n.stop sys trace).2.filter SysCall.isRemoval
          ++ (if n.pidFile ≠ [] then [SysCall.Remove n.pidFile] else [])
          ++ [SysCall.RemoveAll n.dataDir]) ∧
    (∃ rest, (n.shutdown sys trace).2 = (n.stop sys trace).2 ++ rest) ∧
    ((n.shutdown sys trace).1 ≠ none ↔ (n.stop sys trace).1 ≠ none) := by
  have hshut : ∀ err, (n.stop sys trace).1 = some err →
      n.shutdown sys trace = (some err, (n.stop sys trace).2) := by
    intro err herr
    simp only [wasmdNode.shutdown, herr]
  have hclean : (n.stop sys trace).1 = none →
      n.shutdown sys trace = n.cleanup sys (n.stop sys trace).2 := by
    intro hnone
    simp only [wasmdNode.shutdown, hnone, cleanup_result]
    rfl
  refine ⟨hshut, ?_, ?_, ?_⟩
  · intro hnone
    refine ⟨hclean hnone, ?_⟩
    rw [hclean hnone, cleanup_removals]
  · cases hs : (n.stop sys trace).1 with
    | some err => exact ⟨[], by rw [hshut err hs, List.append_nil]⟩
    | none =>
      rw [hclean hs]
      exact cleanup_extends sys n _
  · cases hs : (n.stop sys trace).1 with
    | some err => simp [hshut err hs]
    | none => simp [hclean hs, cleanup_result]

/-- Witness of C13: a started node; with a failing wait `shutdown` returns the error of
the wait and removes nothing, and with a successful wait it removes the pid file and the
data directory and returns nil, although the removal of the pid file fails. -/
theorem shutdown_stop_then_cleanup_witness :
    demo.node.shutdown demo.waitFailsSys []
      = (some (GoError.plain (goStr "signal: interrupt")),
          (demo.node.stop demo.waitFailsSys []).2) ∧
    demo.node.shutdown demo.sys [] = demo.node.cleanup demo.sys (demo.node.stop demo.sys []).2 :=
  ⟨(shutdown_stop_then_cleanup demo.waitFailsSys demo.node []).1 _ rfl,
   ((shutdown_stop_then_cleanup demo.sys demo.node []).2.1 rfl).1⟩

/-- C16: on a node whose command or process is unset, `stop` returns nil and makes no
call.  Otherwise it sends the interrupt signal once, then waits once, and returns the
result of the wait, whatever the signal call returned: nil iff the wait returned nil. -/
theorem stop_signal_then_wait (sys : Sys) (n : wasmdNode) (trace : List SysCall) :
    ((n.cmd = none ∨ ∃ cmd, n.cmd = some cmd ∧ cmd.Process = none) →
      n.stop sys trace = (none, trace)) ∧
    (∀ cmd p, n.cmd = some cmd → cmd.Process = some p →
      (n.stop sys trace).2 = trace ++ [SysCall.SignalInterrupt, SysCall.Wait] ∧
      (n.stop sys trace).1 = sys.result (trace ++ [SysCall.SignalInterrupt]) SysCall.Wait ∧
      ((n.stop sys trace).1 = none
        ↔ sys.result (trace ++ [SysCall.SignalInterrupt]) SysCall.Wait = none)) := by
  constructor
  · rintro (h | ⟨cmd, h, hp⟩)
    · simp only [wasmdNode.stop, h]
    · simp only [wasmdNode.stop, h, hp]
  · intro cmd p h hp
    simp only [wasmdNode.stop, h, hp, Sys.call, List.append_assoc, List.singleton_append,
      and_self, true_and]

/-- Witness of C16: on a started node whose process has already finished, so that the
signal fails, `stop` signals, waits and returns nil; on a node without command it does
nothing. -/
theorem stop_signal_then_wait_witness :
    (demo.node.stop demo.sys []).2 = [] ++ [SysCall.SignalInterrupt, SysCall.Wait] ∧
    (demo.node.stop demo.sys []).1 = none ∧
    wasmdNode.stop demo.sys ⟨none, [], []⟩ [] = (none, []) :=
  ⟨((stop_signal_then_wait demo.sys demo.node []).2 _ _ rfl rfl).1,
   ((stop_signal_then_wait demo.sys demo.node []).2 _ _ rfl rfl).2.2.2 rfl,
   (stop_signal_then_wait demo.sys ⟨none, [], []⟩ []).1 (Or.inl rfl)⟩

/-! ### Code extraction -/

theorem attr_keys_distinct : goStr "code_id" ≠ goStr "code_checksum" := by decide

theorem storeCodeAttributes_cons (e : Event) (es : List Event) :
    storeCodeAttributes (e :: es)
      = (if e.Type_ = goStr "store_code" then e.Attributes else [])
        ++ storeCodeAttributes es := by
  unfold storeCodeAttributes
  by_cases h : e.Type_ = goStr "store_code"
  · simp [List.filter_cons, h]
  · simp [List.filter_cons, h]

theorem events_foldl_eq (step : GoString × GoString → Attribute → GoString × GoString)
    (events : List Event) :
    ∀ acc : GoString × GoString,
      events.foldl
          (fun acc event =>
            if event.Type_ = goStr "store_code" then event.Attributes.foldl step acc else acc)
          acc
        = (storeCodeAttributes events).foldl step acc := by
  induction events with
  | nil => intro acc; rfl
  | cons e es ih =>
    intro acc
    rw [List.foldl_cons, ih, storeCodeAttributes_cons, List.foldl_append]
    by_cases h : e.Type_ = goStr "store_code"
    · simp only [h, if_true]
    · simp only [h, if_false, List.foldl_nil]

theorem attrs_foldl_eq (attrs : List Attribute) :
    attrs.foldl
        (fun (acc : GoString × GoString) attr =>
          if attr.Key = goStr "code_id" then (attr.Value, acc.2)
          else if attr.Key = goStr "code_checksum" then (acc.1, attr.Value)
          else acc)
        ([], [])
      = ((match (attrs.filter fun a => a.Key = goStr "code_id").getLast? with
          | some a => a.Value
          | none => []),
         (match (attrs.filter fun a => a.Key = goStr "code_checksum").getLast? with
          | some a => a.Value
          | none => [])) := by
  induction attrs using List.reverseRecOn with
  | nil => rfl
  | append_singleton l a ih =>
    rw [List.foldl_append, ih, List.foldl_cons, List.foldl_nil, List.filter_append,
      List.filter_append]
    by_cases h1 : a.Key = goStr "code_id"
    · have h2 : a.Key ≠ goStr "code_checksum" := by
        rw [h1]; exact attr_keys_distinct
      simp [List.filter_cons, h1, h2, attr_keys_distinct]
    · by_cases h2 : a.Key = goStr "code_checksum"
      · simp [List.filter_cons, h1, h2, attr_keys_distinct.symm]
      · simp [List.filter_cons, h1, h2]

theorem codeFromEvents_eq (queryResp : TxResponse) :
    codeFromEvents queryResp
      = (lastStoreCodeValue (goStr "code_id") queryResp.Events,
         lastStoreCodeValue (goStr "code_checksum") queryResp.Events) := by
  unfold codeFromEvents lastStoreCodeValue
  rw [events_foldl_eq, attrs_foldl_eq]

theorem StoreWasmCode_result_eq (queryResp : TxResponse) :
    StoreWasmCode_result queryResp
      = if lastStoreCodeValue (goStr "code_id") queryResp.Events = [] ∨
          lastStoreCodeValue (goStr "code_checksum") queryResp.Events = [] then
          ([], [], some (GoError.plain
            (goStr "code ID or code checksum not found in transaction events")))
        else (lastStoreCodeValue (goStr "code_id") queryResp.Events,
          lastStoreCodeValue (goStr "code_checksum") queryResp.Events, none) := by
  simp only [StoreWasmCode_result, codeFromEvents_eq, errorf]

/-- C15: on success the code ID returned by `StoreWasmCode` is the value of the last
attribute with key "code_id" among the events of type "store_code", and the code hash the
value of the last attribute with key "code_checksum" among them; the operation fails iff
one of the two values is the empty string, and then returns two empty strings and the
error "code ID or code checksum not found in transaction events"; an event of another
type has no bearing on the result. -/
theorem StoreWasmCode_result_spec (queryResp : TxResponse) :
    ((StoreWasmCode_result queryResp).2.2 = none →
      (StoreWasmCode_result queryResp).1
        = lastStoreCodeValue (goStr "code_id") queryResp.Events ∧
      (StoreWasmCode_result queryResp).2.1
        = lastStoreCodeValue (goStr "code_checksum") queryResp.Events) ∧
    ((StoreWasmCode_result queryResp).2.2 ≠ none ↔
      lastStoreCodeValue (goStr "code_id") queryResp.Events = [] ∨
      lastStoreCodeValue (goStr "code_checksum") queryResp.Events = []) ∧
    ((StoreWasmCode_result queryResp).2.2 ≠ none →
      StoreWasmCode_result queryResp
        = ([], [], some (GoError.plain
            (goStr "code ID or code checksum not found in transaction events")))) ∧
    (∀ (front back : List Event) (e : Event), e.Type_ ≠ goStr "store_code" →
      StoreWasmCode_result ⟨queryResp.TxHash, front ++ e :: back⟩
        = StoreWasmCode_result ⟨queryResp.TxHash, front ++ back⟩) := by
  by_cases hc : lastStoreCodeValue (goStr "code_id") queryResp.Events = [] ∨
      lastStoreCodeValue (goStr "code_checksum") queryResp.Events = []
  · have hr := StoreWasmCode_result_eq queryResp
    rw [if_pos hc] at hr
    refine ⟨?_, ?_, ?_, ?_⟩
    · intro h
      rw [hr] at h
      cases h
    · rw [hr]
      simp only [ne_eq, reduceCtorEq, not_false_eq_true, true_iff]
      exact hc
    · intro _
      exact hr
    · intro front back e he
      have hs : storeCodeAttributes (front ++ e :: back)
          = storeCodeAttributes (front ++ back) := by
        unfold storeCodeAttributes
        simp [List.filter_append, List.filter_cons, he]
      simp only [StoreWasmCode_result_eq, lastStoreCodeValue, hs]
  · have hr := StoreWasmCode_result_eq queryResp
    rw [if_neg hc] at hr
    refine ⟨?_, ?_, ?_, ?_⟩
    · intro _
      rw [hr]
      exact ⟨rfl, rfl⟩
    · rw [hr]
      simp only [ne_eq, not_true_eq_false, false_iff]
      exact hc
    · intro h
      rw [hr] at h
      exact absurd rfl h
    · intro front back e he
      have hs : storeCodeAttributes (front ++ e :: back)
          = storeCodeAttributes (front ++ back) := by
        unfold storeCodeAttributes
        simp [List.filter_append, List.filter_cons, he]
      simp only [StoreWasmCode_result_eq, lastStoreCodeValue, hs]

/-- Witness of C15: the query response `demo.txResp` gives the code ID "2" and the code
hash "ab12". -/
theorem StoreWasmCode_result_spec_witness :
    ((StoreWasmCode_result demo.txResp).1
        = lastStoreCodeValue (goStr "code_id") demo.txResp.Events ∧
      (StoreWasmCode_result demo.txResp).2.1
        = lastStoreCodeValue (goStr "code_checksum") demo.txResp.Events) ∧
    StoreWasmCode_result demo.txResp = (goStr "2", goStr "ab12", none) :=
  ⟨(StoreWasmCode_result_spec demo.txResp).1 (by decide), by decide⟩

end e2etest
